import Mathlib

/-!
# Lexicographic optimum of a map: the union-decomposition layer

A shallow embedding of `isl_map_lexopt_templ.c`.  The file is a C template,
instantiated once per result representation by defining `TYPE`, `SUFFIX`,
`EMPTY` and `ADD`; here the instantiation is a value of `Env`, which also
carries every function the template calls but does not define.

Conventions of the embedding:

* a C pointer that may be `NULL` is an `Option`; `none` is `NULL`;
* the out-parameter `isl_set **empty` is a `Slot`: `none` when the caller
  passed `NULL` (no infeasible region requested), `some c` when the caller
  passed a cell, `c` being the pointer the cell holds;
* reference counting (`_copy`, `_free`) is the identity on values;
* every function returns, next to its C return value and the final state of
  the slot, the list of the calls to outside functions it made, in order.
-/

namespace Isl

/-- Dimension kinds of a space (`enum isl_dim_type`). -/
inductive isl_dim_type where
  | isl_dim_cst
  | isl_dim_param
  | isl_dim_in
  | isl_dim_out
  | isl_dim_div
  | isl_dim_all
deriving DecidableEq, Repr

/-- Error kinds recorded by `isl_die` (`enum isl_error`), as far as used here. -/
inductive isl_error where
  | isl_error_none
  | isl_error_abort
  | isl_error_unknown
  | isl_error_internal
  | isl_error_invalid
  | isl_error_unsupported
deriving DecidableEq, Repr

/-- The fields of `struct isl_map` the template reads: the space `dim` and the
array of convex pieces `p`, whose length is the field `n`. -/
structure isl_map (Space BMap : Type) where
  dim : Space
  p : List BMap

/-- The field `n` of `struct isl_map`: the number of convex pieces. -/
def isl_map.n {Space BMap : Type} (m : isl_map Space BMap) : Nat := m.p.length

/-- In the template an `isl_set *` is passed where an `isl_map *` is expected
(`isl_set_lexmin`, `isl_map_align_params(dom, ...)`): one type. -/
abbrev isl_set (Space BMap : Type) : Type := isl_map Space BMap

/-- The out-parameter `isl_set **empty`. -/
abbrev Slot (Space BMap : Type) : Type := Option (Option (isl_set Space BMap))

/-- The statement `if (empty) *empty = v;`. -/
def Slot.store {Space BMap : Type} (empty : Slot Space BMap)
    (v : Option (isl_set Space BMap)) : Slot Space BMap :=
  match empty with
  | none => none
  | some _ => some v

/-- A call to a function (or the `isl_die` macro) that the template uses but
does not define, with its arguments. -/
inductive Call (Space BMap TYPE : Type) where
  | tab_basic_map_partial_lexopt (bmap dom : Option BMap) (empty : Bool) (flags : Nat)
  | set_make_disjoint (dom : Option (isl_set Space BMap))
  | EMPTY (space : Option Space)
  | ADD (res res_i : Option TYPE)
  | set_union_disjoint (all_empty e : Option (isl_set Space BMap))
  | extract_domain (bmap : Option BMap)
  | space_match (d1 : Space) (t1 : isl_dim_type) (d2 : Space) (t2 : isl_dim_type)
  | space_has_named_params (d : Space)
  | die (err : isl_error) (msg : String)
  | map_align_params (map : Option (isl_map Space BMap)) (model : Option Space)
  | map_partial_lexopt_aligned (map : Option (isl_map Space BMap))
      (dom : Option (isl_set Space BMap)) (empty : Bool) (flags : Nat)
  | space_domain (d : Option Space)
  | set_universe (d : Option Space)

/-- One instantiation of the template together with the functions it calls.
`EMPTY` and `ADD` are the two macros of the instantiation; the result type
`TYPE` is the third.  A function that receives the slot `empty` returns, as
second component, the pointer it assigns to `*empty` when `empty` is not
`NULL` (the template's own comments: "If empty is not NULL, then *empty is
assigned a set ..."); the `Bool` argument tells it whether `empty` is `NULL`. -/
structure Env (Space BMap TYPE : Type) where
  ISL_OPT_MAX : Nat
  EMPTY : Option Space → Option TYPE
  ADD : Option TYPE → Option TYPE → Option TYPE
  isl_tab_basic_map_partial_lexopt :
    Option BMap → Option BMap → Bool → Nat → Option TYPE × Option (isl_set Space BMap)
  isl_set_make_disjoint : Option (isl_set Space BMap) → Option (isl_set Space BMap)
  isl_set_union_disjoint :
    Option (isl_set Space BMap) → Option (isl_set Space BMap) → Option (isl_set Space BMap)
  isl_basic_map_get_space : Option BMap → Option Space
  extract_domain : Option BMap → Option BMap
  isl_space_match : Space → isl_dim_type → Space → isl_dim_type → Bool
  isl_space_has_named_params : Space → Bool
  isl_map_align_params : Option (isl_map Space BMap) → Option Space → Option (isl_map Space BMap)
  isl_map_get_space : Option (isl_map Space BMap) → Option Space
  isl_map_partial_lexopt_aligned :
    Option (isl_map Space BMap) → Option (isl_set Space BMap) → Bool → Nat →
      Option TYPE × Option (isl_set Space BMap)
  isl_space_domain : Option Space → Option Space
  isl_set_universe : Option Space → Option (isl_set Space BMap)

/-- What a function of the template leaves behind: the returned pointer, the
final state of the slot `empty`, and the outside calls made, in order. -/
structure Ret (Space BMap TYPE : Type) where
  res : Option TYPE
  empty : Slot Space BMap
  calls : List (Call Space BMap TYPE)

variable {Space BMap TYPE : Type}

/-- Modelled from the spec: `isl_set_plain_is_empty`, the plain (syntactic)
emptiness test of a union value, which is not part of the template: the
union has no pieces. -/
def isl_set_plain_is_empty (dom : isl_set Space BMap) : Bool := dom.n == 0

/-- Whether a logged call is an invocation of the Atom Solver. -/
def Call.is_solver : Call Space BMap TYPE → Bool
  | .tab_basic_map_partial_lexopt _ _ _ _ => true
  | _ => false

/-- Number of Atom Solver invocations in a call log. -/
def solver_calls (cs : List (Call Space BMap TYPE)) : Nat := cs.countP Call.is_solver

/-- Whether a logged call is a parameter alignment. -/
def Call.is_align : Call Space BMap TYPE → Bool
  | .map_align_params _ _ => true
  | _ => false

/-- Whether a logged call is the aligned union-level computation, which
decomposes the domain and runs the Atom Solver. -/
def Call.is_aligned : Call Space BMap TYPE → Bool
  | .map_partial_lexopt_aligned _ _ _ _ => true
  | _ => false

/-- Whether a logged call is a disjointification. -/
def Call.is_disjoint : Call Space BMap TYPE → Bool
  | .set_make_disjoint _ => true
  | _ => false

/-- Whether a logged call is an `isl_die`. -/
def Call.is_die : Call Space BMap TYPE → Bool
  | .die _ _ => true
  | _ => false

/-- Whether a logged call compares parameter tuples or inspects their names. -/
def Call.is_param_check : Call Space BMap TYPE → Bool
  | .space_match _ _ _ _ => true
  | .space_has_named_params _ => true
  | _ => false

/-- The function `isl_basic_map_partial_lexopt`: hand the convex relation, the convex
domain, the slot and the flags to the Atom Solver. -/
def isl_basic_map_partial_lexopt (E : Env Space BMap TYPE) (bmap dom : Option BMap)
    (empty : Slot Space BMap) (flags : Nat) : Ret Space BMap TYPE :=
  let r := E.isl_tab_basic_map_partial_lexopt bmap dom empty.isSome flags
  { res := r.1
    empty := empty.store r.2
    calls := [Call.tab_basic_map_partial_lexopt bmap dom empty.isSome flags] }

/-- The function `isl_basic_map_partial_lexmax`. -/
def isl_basic_map_partial_lexmax (E : Env Space BMap TYPE) (bmap dom : Option BMap)
    (empty : Slot Space BMap) : Ret Space BMap TYPE :=
  let flags := E.ISL_OPT_MAX
  isl_basic_map_partial_lexopt E bmap dom empty flags

/-- The function `isl_basic_map_partial_lexmin`. -/
def isl_basic_map_partial_lexmin (E : Env Space BMap TYPE) (bmap dom : Option BMap)
    (empty : Slot Space BMap) : Ret Space BMap TYPE :=
  let flags := 0
  isl_basic_map_partial_lexopt E bmap dom empty flags

/-- The function `isl_basic_set_partial_lexmin`. -/
def isl_basic_set_partial_lexmin (E : Env Space BMap TYPE) (bset dom : Option BMap)
    (empty : Slot Space BMap) : Ret Space BMap TYPE :=
  isl_basic_map_partial_lexmin E bset dom empty

/-- The function `isl_basic_set_partial_lexmax`. -/
def isl_basic_set_partial_lexmax (E : Env Space BMap TYPE) (bset dom : Option BMap)
    (empty : Slot Space BMap) : Ret Space BMap TYPE :=
  isl_basic_map_partial_lexmax E bset dom empty

/-- The variables live across the loop of `basic_map_partial_lexopt`: `res`,
the cell behind `empty`, the local `all_empty` (`none` while unassigned) and
the call log. -/
structure Acc (Space BMap TYPE : Type) where
  res : Option TYPE
  empty : Slot Space BMap
  all_empty : Option (Option (isl_set Space BMap))
  calls : List (Call Space BMap TYPE)

/-- Reading the local `all_empty`; an unassigned local reads as `NULL`. -/
def Acc.read_all_empty (st : Acc Space BMap TYPE) : Option (isl_set Space BMap) :=
  match st.all_empty with
  | some v => v
  | none => none

/-- Body of the loop `for (i = 1; i < dom->n; ++i)`, for one value of `i`.
An index past the end of `p` yields the `NULL` piece. -/
def loop_body (E : Env Space BMap TYPE) (bmap : Option BMap) (dom : isl_set Space BMap)
    (flags : Nat) (st : Acc Space BMap TYPE) (i : Nat) : Acc Space BMap TYPE :=
  let r_i := isl_basic_map_partial_lexopt E bmap dom.p[i]? st.empty flags
  let res := E.ADD st.res r_i.res
  match r_i.empty with
  | none =>
    { res := res
      empty := none
      all_empty := st.all_empty
      calls := st.calls ++ r_i.calls ++ [Call.ADD st.res r_i.res] }
  | some e =>
    { res := res
      empty := some e
      all_empty := some (E.isl_set_union_disjoint st.read_all_empty e)
      calls := st.calls ++ r_i.calls ++
        [Call.ADD st.res r_i.res, Call.set_union_disjoint st.read_all_empty e] }

/-- The function `basic_map_partial_lexopt`: make the pieces of `dom` disjoint, run the
Atom Solver on each piece and collect the results. -/
def basic_map_partial_lexopt (E : Env Space BMap TYPE) (bmap : Option BMap)
    (dom : Option (isl_set Space BMap)) (empty : Slot Space BMap) (flags : Nat) :
    Ret Space BMap TYPE :=
  match E.isl_set_make_disjoint dom with
  | none =>
    { res := none
      empty := empty.store none
      calls := [Call.set_make_disjoint dom] }
  | some dom1 =>
    if isl_set_plain_is_empty dom1 then
      let space := E.isl_basic_map_get_space bmap
      { res := E.EMPTY space
        empty := empty.store (some dom1)
        calls := [Call.set_make_disjoint dom, Call.EMPTY space] }
    else
      let r := isl_basic_map_partial_lexopt E bmap dom1.p[0]? empty flags
      let st0 : Acc Space BMap TYPE :=
        { res := r.res
          empty := r.empty
          all_empty := r.empty
          calls := Call.set_make_disjoint dom :: r.calls }
      let st := (List.range' 1 (dom1.n - 1)).foldl (loop_body E bmap dom1 flags) st0
      { res := st.res
        empty := st.empty.store st.read_all_empty
        calls := st.calls }

/-- The function `isl_basic_map_lexopt`: the optimum of `bmap` over its own domain. -/
def isl_basic_map_lexopt (E : Env Space BMap TYPE) (bmap : Option BMap) (flags : Nat) :
    Ret Space BMap TYPE :=
  let dom := E.extract_domain bmap
  let r := isl_basic_map_partial_lexopt E bmap dom none flags
  { r with calls := Call.extract_domain bmap :: r.calls }

/-- The function `isl_basic_map_lexmin`. -/
def isl_basic_map_lexmin (E : Env Space BMap TYPE) (bmap : Option BMap) :
    Ret Space BMap TYPE :=
  isl_basic_map_lexopt E bmap 0

/-- The function `isl_map_partial_lexopt_aligned`, declared in the template and defined by
the file that includes it: a call to the function supplied in `Env`. -/
def isl_map_partial_lexopt_aligned (E : Env Space BMap TYPE)
    (map : Option (isl_map Space BMap)) (dom : Option (isl_set Space BMap))
    (empty : Slot Space BMap) (flags : Nat) : Ret Space BMap TYPE :=
  let r := E.isl_map_partial_lexopt_aligned map dom empty.isSome flags
  { res := r.1
    empty := empty.store r.2
    calls := [Call.map_partial_lexopt_aligned map dom empty.isSome flags] }

/-- The function `isl_map_partial_lexopt`: align the parameters of `map` and `dom` if
needed and call `isl_map_partial_lexopt_aligned`. -/
def isl_map_partial_lexopt (E : Env Space BMap TYPE)
    (map : Option (isl_map Space BMap)) (dom : Option (isl_set Space BMap))
    (empty : Slot Space BMap) (flags : Nat) : Ret Space BMap TYPE :=
  match map, dom with
  | some m, some d =>
    let c_match := Call.space_match m.dim isl_dim_type.isl_dim_param d.dim
      isl_dim_type.isl_dim_param
    if E.isl_space_match m.dim isl_dim_type.isl_dim_param d.dim
        isl_dim_type.isl_dim_param then
      let r := isl_map_partial_lexopt_aligned E map dom empty flags
      { r with calls := c_match :: r.calls }
    else if !E.isl_space_has_named_params m.dim then
      { res := none
        empty := empty.store none
        calls := [c_match, Call.space_has_named_params m.dim,
          Call.die isl_error.isl_error_invalid "unaligned unnamed parameters"] }
    else if !E.isl_space_has_named_params d.dim then
      { res := none
        empty := empty.store none
        calls := [c_match, Call.space_has_named_params m.dim,
          Call.space_has_named_params d.dim,
          Call.die isl_error.isl_error_invalid "unaligned unnamed parameters"] }
    else
      let space_d := E.isl_map_get_space dom
      let map1 := E.isl_map_align_params map space_d
      let space_m := E.isl_map_get_space map1
      let dom1 := E.isl_map_align_params dom space_m
      let r := isl_map_partial_lexopt_aligned E map1 dom1 empty flags
      { r with calls := [c_match, Call.space_has_named_params m.dim,
          Call.space_has_named_params d.dim, Call.map_align_params map space_d,
          Call.map_align_params dom space_m] ++ r.calls }
  | _, _ =>
    { res := none
      empty := empty.store none
      calls := [] }

/-- The function `isl_map_lexopt`: the optimum of `map` over the universe of its domain
space. -/
def isl_map_lexopt (E : Env Space BMap TYPE) (map : Option (isl_map Space BMap))
    (flags : Nat) : Ret Space BMap TYPE :=
  match map with
  | none =>
    { res := none
      empty := none
      calls := [] }
  | some m =>
    let dom_space := E.isl_space_domain (some m.dim)
    let dom := E.isl_set_universe dom_space
    let r := isl_map_partial_lexopt E map dom none flags
    { r with calls := [Call.space_domain (some m.dim), Call.set_universe dom_space] ++ r.calls }

/-- The function `isl_map_lexmin`. -/
def isl_map_lexmin (E : Env Space BMap TYPE) (map : Option (isl_map Space BMap)) :
    Ret Space BMap TYPE :=
  isl_map_lexopt E map 0

/-- The function `isl_map_lexmax`. -/
def isl_map_lexmax (E : Env Space BMap TYPE) (map : Option (isl_map Space BMap)) :
    Ret Space BMap TYPE :=
  isl_map_lexopt E map E.ISL_OPT_MAX

/-- The function `isl_set_lexmin`. -/
def isl_set_lexmin (E : Env Space BMap TYPE) (set : Option (isl_set Space BMap)) :
    Ret Space BMap TYPE :=
  isl_map_lexmin E set

/-- The function `isl_set_lexmax`. -/
def isl_set_lexmax (E : Env Space BMap TYPE) (set : Option (isl_set Space BMap)) :
    Ret Space BMap TYPE :=
  isl_map_lexmax E set

/-! ## Meaning of the values

The template never looks inside a convex piece or a result.  What the pieces
and the results denote is fixed by an interpretation `Sem`: input tuples are
the elements of `X`, output tuples the elements of `Y`. -/

/-- An interpretation of convex pieces and results as sets of tuples. -/
structure Sem (BMap TYPE X Y : Type) where
  pts : BMap → Set X
  rel : BMap → Set (X × Y)
  graph : TYPE → Set (X × Y)

variable {X Y : Type}

/-- Point set of a union value: the union of the point sets of its pieces. -/
def Sem.set_pts (S : Sem BMap TYPE X Y) (s : isl_set Space BMap) : Set X :=
  {x | ∃ b ∈ s.p, x ∈ S.pts b}

/-- Domain covered by a result: the input tuples it maps to some output. -/
def Sem.rdom (S : Sem BMap TYPE X Y) (r : TYPE) : Set X :=
  {x | ∃ y, (x, y) ∈ S.graph r}

/-- The disjointification contract: on `D` it returns pairwise-disjoint
pieces whose union is the point set of `D`. -/
def Sem.disjointifies (S : Sem BMap TYPE X Y) (E : Env Space BMap TYPE)
    (D dj : isl_set Space BMap) : Prop :=
  E.isl_set_make_disjoint (some D) = some dj ∧
  dj.p.Pairwise (fun a b => Disjoint (S.pts a) (S.pts b)) ∧
  S.set_pts dj = S.set_pts D

/-- The contract of `ADD`: on two present results with disjoint domains it
returns a result denoting the union of the two. -/
def Sem.ADD_is_union (S : Sem BMap TYPE X Y) (E : Env Space BMap TYPE) : Prop :=
  ∀ a b : TYPE, Disjoint (S.rdom a) (S.rdom b) →
    ∃ c, E.ADD (some a) (some b) = some c ∧ S.graph c = S.graph a ∪ S.graph b

/-- The contract of `isl_set_union_disjoint`: on two present disjoint regions
it returns a region denoting the union of the two. -/
def Sem.union_is_union (S : Sem BMap TYPE X Y) (E : Env Space BMap TYPE) : Prop :=
  ∀ a b : isl_set Space BMap, Disjoint (S.set_pts a) (S.set_pts b) →
    ∃ c, E.isl_set_union_disjoint (some a) (some b) = some c ∧
      S.set_pts c = S.set_pts a ∪ S.set_pts b

/-- The contract of `EMPTY` on the space of the present relation `R`: a
present result that maps no input tuple. -/
def Sem.EMPTY_is_empty (S : Sem BMap TYPE X Y) (E : Env Space BMap TYPE) (R : BMap) : Prop :=
  ∃ r, E.EMPTY (E.isl_basic_map_get_space (some R)) = some r ∧ S.graph r = ∅

/-- The Atom Solver, asked for the infeasible region, splits the atom `a`:
it returns a present result and a present region that are disjoint and
together cover exactly `a`. -/
def Sem.solver_partitions (S : Sem BMap TYPE X Y) (E : Env Space BMap TYPE)
    (R a : BMap) (flags : Nat) : Prop :=
  ∃ r e, E.isl_tab_basic_map_partial_lexopt (some R) (some a) true flags = (some r, some e) ∧
    Disjoint (S.rdom r) (S.set_pts e) ∧ S.rdom r ∪ S.set_pts e = S.pts a

/-- The loop body applied to a piece instead of an index (proof device:
`loop_body` at index `i` is `visit` at `dom.p[i]?`). -/
def visit (E : Env Space BMap TYPE) (bmap : Option BMap) (flags : Nat)
    (st : Acc Space BMap TYPE) (a : Option BMap) : Acc Space BMap TYPE :=
  let r_i := isl_basic_map_partial_lexopt E bmap a st.empty flags
  let res := E.ADD st.res r_i.res
  match r_i.empty with
  | none =>
    { res := res
      empty := none
      all_empty := st.all_empty
      calls := st.calls ++ r_i.calls ++ [Call.ADD st.res r_i.res] }
  | some e =>
    { res := res
      empty := some e
      all_empty := some (E.isl_set_union_disjoint st.read_all_empty e)
      calls := st.calls ++ r_i.calls ++
        [Call.ADD st.res r_i.res, Call.set_union_disjoint st.read_all_empty e] }

/-- The Atom Solver, asked for the infeasible region of the atom `a`, returns
a present result and a present region, both inside `a`. -/
def Sem.solver_inside (S : Sem BMap TYPE X Y) (E : Env Space BMap TYPE)
    (R a : BMap) (flags : Nat) : Prop :=
  ∃ r e, E.isl_tab_basic_map_partial_lexopt (some R) (some a) true flags = (some r, some e) ∧
    S.rdom r ⊆ S.pts a ∧ S.set_pts e ⊆ S.pts a

/-- Output tuples. -/
abbrev Tuple : Type := List Int

/-- Lexicographic comparison of output tuples: the first coordinate has
priority. -/
def lex_le : Tuple → Tuple → Bool
  | [], _ => true
  | _ :: _, [] => false
  | a :: as, b :: bs => decide (a < b) || (a == b && lex_le as bs)

/-- Whether `flags` includes `ISL_OPT_MAX` (the comment of
`isl_basic_map_partial_lexopt`: "maximum if flags includes ISL_OPT_MAX"). -/
def Env.is_max (E : Env Space BMap TYPE) (flags : Nat) : Bool :=
  flags &&& E.ISL_OPT_MAX != 0

/-- The tuple `y` is at least as good as `y1`: lexicographically not larger
when minimizing, not smaller when maximizing. -/
def lex_better (mx : Bool) (y y1 : Tuple) : Prop :=
  if mx then lex_le y1 y = true else lex_le y y1 = true

/-- The tuple `y` is the lexicographic optimum of the image of `x` under the
convex relation `R`. -/
def Sem.is_lexopt (S : Sem BMap TYPE X Tuple) (mx : Bool) (R : BMap) (x : X) (y : Tuple) :
    Prop :=
  (x, y) ∈ S.rel R ∧ ∀ y1, (x, y1) ∈ S.rel R → lex_better mx y y1

/-- The graph `G` is the exact optimum of `R` over the region `A`: it maps
every input tuple of `A` that has a feasible image to some output tuple, and
every pair in it is an input tuple of `A` with its lexicographic optimum. -/
def Sem.exact_on (S : Sem BMap TYPE X Tuple) (mx : Bool) (R : BMap) (A : Set X)
    (G : Set (X × Tuple)) : Prop :=
  (∀ x y, (x, y) ∈ G ↔ x ∈ A ∧ S.is_lexopt mx R x y) ∧
  (∀ x ∈ A, (∃ y, (x, y) ∈ S.rel R) → ∃ y, (x, y) ∈ G)

/-- The Atom Solver is exact on the atom `a`, called with a slot (`b = true`)
or without one: it returns a present result that is the exact optimum of `R`
over `a`. -/
def Sem.solver_exact (S : Sem BMap TYPE X Tuple) (E : Env Space BMap TYPE)
    (R a : BMap) (b : Bool) (flags : Nat) : Prop :=
  ∃ r, (E.isl_tab_basic_map_partial_lexopt (some R) (some a) b flags).1 = some r ∧
    S.exact_on (E.is_max flags) R (S.pts a) (S.graph r)

/-- The Atom Solver reports as infeasible region of the atom `a` a present
region: the input tuples of `a` without an image under `R`. -/
def Sem.solver_exact_empty (S : Sem BMap TYPE X Tuple) (E : Env Space BMap TYPE)
    (R a : BMap) (flags : Nat) : Prop :=
  ∃ e, (E.isl_tab_basic_map_partial_lexopt (some R) (some a) true flags).2 = some e ∧
    S.set_pts e = {x | x ∈ S.pts a ∧ ¬ ∃ y, (x, y) ∈ S.rel R}

/-- Modelled from the spec: `extract_domain`, which the template calls but
does not define, returns the intrinsic domain of a convex relation ("R's own
existential projection"): a present convex region whose points are the input
tuples that have an image under `R`. -/
def Sem.extracts_intrinsic_domain (S : Sem BMap TYPE X Tuple) (E : Env Space BMap TYPE)
    (R dom0 : BMap) : Prop :=
  E.extract_domain (some R) = some dom0 ∧ S.pts dom0 = {x | ∃ y, (x, y) ∈ S.rel R}

/-- The results collected by the loop: `ADD` folded from the left over the
Atom Solver's results on the pieces (proof device). -/
def fold_res (E : Env Space BMap TYPE) (bmap : Option BMap) (b : Bool) (flags : Nat)
    (acc : Option TYPE) (atoms : List (Option BMap)) : Option TYPE :=
  atoms.foldl
    (fun acc a => E.ADD acc (E.isl_tab_basic_map_partial_lexopt bmap a b flags).1) acc

/-- The infeasible regions collected by the loop: `isl_set_union_disjoint`
folded from the left over the Atom Solver's regions on the pieces (proof
device). -/
def fold_empty (E : Env Space BMap TYPE) (bmap : Option BMap) (flags : Nat)
    (acc : Option (isl_set Space BMap)) (atoms : List (Option BMap)) :
    Option (isl_set Space BMap) :=
  atoms.foldl
    (fun acc a => E.isl_set_union_disjoint acc
      (E.isl_tab_basic_map_partial_lexopt bmap a true flags).2) acc

/-- Modelled from the spec: the parameter tuple that `isl_map_align_params`,
which the template calls but does not define, gives to a map aligned to a
model space ("a reconciliation collaborator merges and reorders named
parameters"): the parameters of the model, in the model's order, followed by
the parameters of the map that the model lacks. -/
def merge_params {P : Type} [DecidableEq P] (model ps : List P) : List P :=
  model ++ ps.filter (fun q => decide (q ∉ model))

/-- The contract of the two space functions used for alignment, for a reading
`params` of the parameter tuple of a space: `isl_map_get_space` returns the
space of a present map, and `isl_map_align_params` on a present map and a
present model returns a present map whose parameter tuple is the merged
one. -/
def aligns_params {P : Type} [DecidableEq P] (E : Env Space BMap TYPE)
    (params : Space → List P) : Prop :=
  (∀ m : isl_map Space BMap, E.isl_map_get_space (some m) = some m.dim) ∧
  ∀ (m : isl_map Space BMap) (model : Space),
    ∃ m1, E.isl_map_align_params (some m) (some model) = some m1 ∧
      params m1.dim = merge_params (params model) (params m.dim)

/-! ## A small concrete instantiation

Convex pieces with one input and one output coordinate, and the two result
representations over them.  It serves to evaluate the template on concrete
inputs. -/

namespace Toy

/-- A space: the parameter tuple (`none` for an unnamed parameter) and the
arities of the input and output tuples. -/
structure Space0 where
  params : List (Option String)
  n_in : Nat
  n_out : Nat
deriving DecidableEq, Repr

/-- A convex piece: the input tuples `x` with `inp x`, each related to the
output tuples `y` with `lo ≤ y ≤ hi`.  Read as a region, it is the set of
its input tuples. -/
structure Piece where
  dim : Space0
  inp : Int → Bool
  lo : Int
  hi : Int

/-- The space of relations with one input and one output coordinate and no
parameters. -/
def sp : Space0 := { params := [], n_in := 1, n_out := 1 }

/-- The region `lo ≤ x ≤ hi`. -/
def interval (lo hi : Int) : Piece :=
  { dim := sp, inp := fun x => decide (lo ≤ x) && decide (x ≤ hi), lo := 0, hi := 0 }

/-- The relation `{x -> y : x ≤ xmax, lo ≤ y ≤ hi}`. -/
def band (xmax : Option Int) (lo hi : Int) : Piece :=
  { dim := sp
    inp := fun x => match xmax with
      | none => true
      | some m => decide (x ≤ m)
    lo := lo
    hi := hi }

/-- The pieces of a region made disjoint: each piece loses the points of the
pieces before it. -/
def disjoint_pieces : List Piece → List Piece → List Piece
  | _, [] => []
  | seen, a :: rest =>
    { a with inp := fun x => a.inp x && !(seen.any (fun b => b.inp x)) } ::
      disjoint_pieces (seen ++ [a]) rest

/-- Disjointification. -/
def make_disjoint (dom : Option (isl_set Space0 Piece)) : Option (isl_set Space0 Piece) :=
  match dom with
  | none => none
  | some d => some { dim := d.dim, p := disjoint_pieces [] d.p }

/-- Union of two present values over one space, `NULL` otherwise. -/
def union (a b : Option (isl_map Space0 Piece)) : Option (isl_map Space0 Piece) :=
  match a, b with
  | some a, some b => some { dim := a.dim, p := a.p ++ b.p }
  | _, _ => none

/-- The empty relational result. -/
def map_empty (space : Option Space0) : Option (isl_map Space0 Piece) :=
  match space with
  | none => none
  | some d => some { dim := d, p := [] }

/-- The Atom Solver with a relational result: over the inputs of `dom` that
have an image, the smallest (largest with the maximize flag, bit 0) output;
the other inputs of `dom` form the infeasible region. -/
def tab (bmap dom : Option Piece) (_empty : Bool) (flags : Nat) :
    Option (isl_map Space0 Piece) × Option (isl_set Space0 Piece) :=
  match bmap, dom with
  | some R, some a =>
    let y := if flags &&& 1 != 0 then R.hi else R.lo
    (some { dim := R.dim
            p := [{ dim := R.dim
                    inp := fun x => a.inp x && (R.inp x && decide (R.lo ≤ R.hi))
                    lo := y
                    hi := y }] },
     some { dim := a.dim
            p := [{ a with inp := fun x => a.inp x && !(R.inp x && decide (R.lo ≤ R.hi)) }] })
  | _, _ => (none, none)

/-- Parameter tuples match: the same names in the same order (unnamed
parameters match by position). -/
def space_match (d1 : Space0) (_t1 : isl_dim_type) (d2 : Space0) (_t2 : isl_dim_type) : Bool :=
  d1.params == d2.params

/-- Every parameter of the space has a name. -/
def has_named_params (d : Space0) : Bool := d.params.all Option.isSome

/-- Modelled from the spec: `isl_map_align_params`, the reconciliation of
named parameters, which the template calls but does not define ("a
reconciliation collaborator merges and reorders named parameters"): the
result has the parameters of the model space, in the model's order, followed
by the parameters of the map that the model lacks. -/
def align_params (map : Option (isl_map Space0 Piece)) (model : Option Space0) :
    Option (isl_map Space0 Piece) :=
  match map, model with
  | some m, some d =>
    let ps := merge_params d.params m.dim.params
    some { dim := { m.dim with params := ps }
           p := m.p.map (fun b => { b with dim := { b.dim with params := ps } }) }
  | _, _ => none

/-- The space of a present map. -/
def get_space (map : Option (isl_map Space0 Piece)) : Option Space0 :=
  map.map (fun m => m.dim)

/-- The domain of a space: no output tuple. -/
def space_domain (d : Option Space0) : Option Space0 :=
  d.map (fun d => { d with n_out := 0 })

/-- The universe region of a space. -/
def set_universe (d : Option Space0) : Option (isl_set Space0 Piece) :=
  d.map (fun d => { dim := d, p := [{ dim := d, inp := fun _ => true, lo := 0, hi := 0 }] })

/-- The domain of a convex relation: the inputs that have an image. -/
def domain (bmap : Option Piece) : Option Piece :=
  bmap.map (fun R => { R with inp := fun x => R.inp x && decide (R.lo ≤ R.hi) })

/-- The instantiation with relational results, before the aligned
union-level computation is tied in. -/
def env0 : Env Space0 Piece (isl_map Space0 Piece) :=
  { ISL_OPT_MAX := 1
    EMPTY := map_empty
    ADD := union
    isl_tab_basic_map_partial_lexopt := tab
    isl_set_make_disjoint := make_disjoint
    isl_set_union_disjoint := union
    isl_basic_map_get_space := fun b => b.map (fun b => b.dim)
    extract_domain := domain
    isl_space_match := space_match
    isl_space_has_named_params := has_named_params
    isl_map_align_params := align_params
    isl_map_get_space := get_space
    isl_map_partial_lexopt_aligned := fun _ _ _ _ => (none, none)
    isl_space_domain := space_domain
    isl_set_universe := set_universe }

/-- The aligned union-level computation, for a map with one convex piece:
`basic_map_partial_lexopt` on that piece. -/
def aligned (map : Option (isl_map Space0 Piece)) (dom : Option (isl_set Space0 Piece))
    (empty : Bool) (flags : Nat) :
    Option (isl_map Space0 Piece) × Option (isl_set Space0 Piece) :=
  match map with
  | some m =>
    match m.p with
    | [b] =>
      let r := basic_map_partial_lexopt env0 (some b) dom (if empty then some none else none)
        flags
      (r.res, r.empty.join)
    | _ => (none, none)
  | none => (none, none)

/-- The instantiation with relational results. -/
def env : Env Space0 Piece (isl_map Space0 Piece) :=
  { env0 with isl_map_partial_lexopt_aligned := aligned }

/-- The meaning of pieces and relational results. -/
def sem : Sem Piece (isl_map Space0 Piece) Int Tuple :=
  { pts := fun b => {x | b.inp x = true}
    rel := fun b => {z | b.inp z.1 = true ∧ ∃ v, z.2 = [v] ∧ b.lo ≤ v ∧ v ≤ b.hi}
    graph := fun r => {z | ∃ b ∈ r.p, b.inp z.1 = true ∧ ∃ v, z.2 = [v] ∧ b.lo ≤ v ∧ v ≤ b.hi} }

/-- The region union with the given pieces. -/
def region (ps : List Piece) : isl_set Space0 Piece := { dim := sp, p := ps }

/-- A map or region over the given parameter tuple, without pieces. -/
def with_params (ps : List (Option String)) : isl_map Space0 Piece :=
  { dim := { params := ps, n_in := 1, n_out := 1 }, p := [] }

/-- An Atom Solver that reports failure on atoms whose space has parameters
and is `tab` on the others. -/
def tab_limited (bmap dom : Option Piece) (empty : Bool) (flags : Nat) :
    Option (isl_map Space0 Piece) × Option (isl_set Space0 Piece) :=
  match dom with
  | some a => if a.dim.params.isEmpty then tab bmap dom empty flags else (none, none)
  | none => (none, none)

/-- The instantiation with relational results and the limited Atom Solver. -/
def env_limited : Env Space0 Piece (isl_map Space0 Piece) :=
  { env with isl_tab_basic_map_partial_lexopt := tab_limited }

/-- A region piece over a space with the parameter `n`. -/
def interval_n (lo hi : Int) : Piece :=
  { interval lo hi with dim := { params := [some "n"], n_in := 1, n_out := 1 } }

/-- A piece of a functional result: on the input tuples `x` with `inp x` the
output is `val`. -/
structure FPiece where
  inp : Int → Bool
  val : Int

/-- A relational result read as a functional one, piece by piece. -/
def to_pw (r : isl_map Space0 Piece) : List FPiece :=
  r.p.map (fun b => { inp := b.inp, val := b.lo })

/-- Sum of two present functional results, `NULL` otherwise. -/
def pw_add (a b : Option (List FPiece)) : Option (List FPiece) :=
  match a, b with
  | some a, some b => some (a ++ b)
  | _, _ => none

/-- The empty functional result. -/
def pw_empty (space : Option Space0) : Option (List FPiece) :=
  match space with
  | none => none
  | some _ => some []

/-- The instantiation with functional results: the Atom Solver returns the
relational solver's result in functional form. -/
def env_pw : Env Space0 Piece (List FPiece) :=
  { ISL_OPT_MAX := 1
    EMPTY := pw_empty
    ADD := pw_add
    isl_tab_basic_map_partial_lexopt := fun bmap dom e flags =>
      ((tab bmap dom e flags).1.map to_pw, (tab bmap dom e flags).2)
    isl_set_make_disjoint := make_disjoint
    isl_set_union_disjoint := union
    isl_basic_map_get_space := fun b => b.map (fun b => b.dim)
    extract_domain := domain
    isl_space_match := space_match
    isl_space_has_named_params := has_named_params
    isl_map_align_params := align_params
    isl_map_get_space := get_space
    isl_map_partial_lexopt_aligned := fun m d e flags =>
      ((aligned m d e flags).1.map to_pw, (aligned m d e flags).2)
    isl_space_domain := space_domain
    isl_set_universe := set_universe }

/-- The instantiation with relational results in which disjointification
returns a present domain union as it is (for unions that are disjoint
already). -/
def env_keep : Env Space0 Piece (isl_map Space0 Piece) :=
  { env with isl_set_make_disjoint := fun dom => dom }

/-- The universe region of the domain of the space `sp`, as
`set_universe (space_domain (some sp))` builds it. -/
def universe_in : isl_set Space0 Piece :=
  { dim := { params := [], n_in := 1, n_out := 0 }
    p := [{ dim := { params := [], n_in := 1, n_out := 0 }
            inp := fun _ => true
            lo := 0
            hi := 0 }] }

/-- The inputs of a convex relation that have an image, as a region. -/
def domain_region (R : Piece) : isl_set Space0 Piece :=
  region [{ R with inp := fun x => R.inp x && decide (R.lo ≤ R.hi) }]

end Toy

/-- Whether a logged call is a region union. -/
def Call.is_union : Call Space BMap TYPE → Bool
  | .set_union_disjoint _ _ => true
  | _ => false

/-- Domain covered by a result pointer: no input tuple for `NULL`. -/
def Sem.odom (S : Sem BMap TYPE X Y) (r : Option TYPE) : Set X :=
  match r with
  | some r => S.rdom r
  | none => ∅

/-- Point set of a region pointer: no point for `NULL`. -/
def Sem.opts (S : Sem BMap TYPE X Y) (e : Option (isl_set Space BMap)) : Set X :=
  match e with
  | some e => S.set_pts e
  | none => ∅

/-- The two operands of a logged combination are disjoint: the domains of
the two results of an `ADD`, the point sets of the two regions of an
`isl_set_union_disjoint`.  Other calls combine nothing. -/
def Sem.operands_disjoint (S : Sem BMap TYPE X Y) : Call Space BMap TYPE → Prop
  | .ADD a b => Disjoint (S.odom a) (S.odom b)
  | .set_union_disjoint a b => Disjoint (S.opts a) (S.opts b)
  | _ => True

/-- The Atom Solver's outputs on the atom `a` lie inside `a`: the domain of
the result and the infeasible region. -/
def Sem.solver_within (S : Sem BMap TYPE X Y) (E : Env Space BMap TYPE)
    (R a : BMap) (b : Bool) (flags : Nat) : Prop :=
  S.odom (E.isl_tab_basic_map_partial_lexopt (some R) (some a) b flags).1 ⊆ S.pts a ∧
  S.opts (E.isl_tab_basic_map_partial_lexopt (some R) (some a) b flags).2 ⊆ S.pts a

/-- The Atom Solver, called on the atom `a` with a slot (`b = true`) or
without one, returns a present result whose domain lies inside `a`, and,
with a slot, a present infeasible region inside `a`. -/
def Sem.solver_present_within (S : Sem BMap TYPE X Y) (E : Env Space BMap TYPE)
    (R a : BMap) (b : Bool) (flags : Nat) : Prop :=
  (∃ r, (E.isl_tab_basic_map_partial_lexopt (some R) (some a) b flags).1 = some r ∧
    S.rdom r ⊆ S.pts a) ∧
  (b = true →
    ∃ e, (E.isl_tab_basic_map_partial_lexopt (some R) (some a) b flags).2 = some e ∧
      S.set_pts e ⊆ S.pts a)

/-- Modelled from the spec: the intrinsic domain of a relation union ("its
existential projection onto the domain tuple"): the input tuples that have
an image under one of its convex pieces. -/
def Sem.intrinsic_domain (S : Sem BMap TYPE X Y) (M : isl_map Space BMap) : Set X :=
  {x | ∃ b ∈ M.p, ∃ y, (x, y) ∈ S.rel b}

/-- Graph of a relation union: the pairs of its convex pieces. -/
def Sem.map_rel (S : Sem BMap TYPE X Y) (M : isl_map Space BMap) : Set (X × Y) :=
  {z | ∃ b ∈ M.p, z ∈ S.rel b}

/-- The tuple `y` is the lexicographic optimum of the image of `x` under the
relation union `M`. -/
def Sem.is_lexopt_map (S : Sem BMap TYPE X Tuple) (mx : Bool) (M : isl_map Space BMap)
    (x : X) (y : Tuple) : Prop :=
  (x, y) ∈ S.map_rel M ∧ ∀ y1, (x, y1) ∈ S.map_rel M → lex_better mx y y1

/-- Modelled from the spec: `isl_map_partial_lexopt_aligned`, which the
template declares but does not define, called without a slot on the relation
union `M` and the domain `d`, computes "the lexicographically smallest or
largest output tuple for every input tuple, exactly": it returns a present
result whose pairs are exactly the input tuples of `d` with the lexicographic
optimum of their image under `M`. -/
def Sem.aligned_exact (S : Sem BMap TYPE X Tuple) (E : Env Space BMap TYPE)
    (M : isl_map Space BMap) (d : isl_set Space BMap) (flags : Nat) : Prop :=
  ∃ r, (E.isl_map_partial_lexopt_aligned (some M) (some d) false flags).1 = some r ∧
    ∀ x y, (x, y) ∈ S.graph r ↔
      x ∈ S.set_pts d ∧ S.is_lexopt_map (E.is_max flags) M x y

/-- The loop variables when the loop is entered: the first piece has been
solved (proof device). -/
def first (E : Env Space BMap TYPE) (bmap : Option BMap) (dom : Option (isl_set Space BMap))
    (a0 : Option BMap) (empty : Slot Space BMap) (flags : Nat) : Acc Space BMap TYPE :=
  { res := (isl_basic_map_partial_lexopt E bmap a0 empty flags).res
    empty := (isl_basic_map_partial_lexopt E bmap a0 empty flags).empty
    all_empty := (isl_basic_map_partial_lexopt E bmap a0 empty flags).empty
    calls := Call.set_make_disjoint dom ::
      (isl_basic_map_partial_lexopt E bmap a0 empty flags).calls }

/-- What `basic_map_partial_lexopt` returns from the loop variables once the
loop is over (proof device). -/
def finish (st : Acc Space BMap TYPE) : Ret Space BMap TYPE :=
  { res := st.res
    empty := st.empty.store st.read_all_empty
    calls := st.calls }

/-! ## Lemmas on the loop -/

theorem loop_body_eq_visit (E : Env Space BMap TYPE) (bmap : Option BMap)
    (dom : isl_set Space BMap) (flags : Nat) (st : Acc Space BMap TYPE) (i : Nat) :
    loop_body E bmap dom flags st i = visit E bmap flags st dom.p[i]? := rfl

theorem range_index_tail (pre l : List BMap) :
    (List.range' pre.length l.length).map (fun i => (pre ++ l)[i]?) = l.map some := by
  induction l generalizing pre with
  | nil => simp
  | cons a l ih =>
    have h := ih (pre ++ [a])
    simp only [List.length_append, List.length_singleton, List.append_assoc,
      List.singleton_append] at h
    simp only [List.length_cons, List.range', List.map_cons, h]
    have h0 : (pre ++ a :: l)[pre.length]? = some a := by
      rw [List.getElem?_append_right (Nat.le_refl _)]
      simp
    rw [h0]

theorem loop_eq_fold_visit (E : Env Space BMap TYPE) (bmap : Option BMap)
    (dom : isl_set Space BMap) (flags : Nat) (st : Acc Space BMap TYPE)
    (a0 : BMap) (rest : List BMap) (hp : dom.p = a0 :: rest) :
    (List.range' 1 (dom.n - 1)).foldl (loop_body E bmap dom flags) st =
      (rest.map some).foldl (visit E bmap flags) st := by
  have h := range_index_tail [a0] rest
  simp only [List.length_singleton, List.singleton_append] at h
  have hn : dom.n - 1 = rest.length := by simp [isl_map.n, hp]
  have hf : loop_body E bmap dom flags =
      fun st i => visit E bmap flags st (a0 :: rest)[i]? := by
    funext st i
    rw [loop_body_eq_visit, hp]
  rw [← h, List.foldl_map, hn, hf]

theorem visit_slot (E : Env Space BMap TYPE) (bmap a : Option BMap) (flags : Nat)
    (st : Acc Space BMap TYPE) (c : Option (isl_set Space BMap)) (h : st.empty = some c) :
    (visit E bmap flags st a).res =
        E.ADD st.res (E.isl_tab_basic_map_partial_lexopt bmap a true flags).1 ∧
      (visit E bmap flags st a).empty =
        some (E.isl_tab_basic_map_partial_lexopt bmap a true flags).2 ∧
      (visit E bmap flags st a).all_empty =
        some (E.isl_set_union_disjoint st.read_all_empty
          (E.isl_tab_basic_map_partial_lexopt bmap a true flags).2) := by
  simp [visit, isl_basic_map_partial_lexopt, Slot.store, h]

theorem fold_visit_sem (S : Sem BMap TYPE X Y) (E : Env Space BMap TYPE) (R : BMap)
    (flags : Nat) (hADD : S.ADD_is_union E) (hUn : S.union_is_union E) (atoms : List BMap) :
    ∀ (st : Acc Space BMap TYPE) (U : Set X) (r : TYPE) (e : isl_set Space BMap)
      (c : Option (isl_set Space BMap)),
      st.res = some r → st.empty = some c → st.all_empty = some (some e) →
      S.rdom r ⊆ U → S.set_pts e ⊆ U →
      (∀ a ∈ atoms, Disjoint U (S.pts a)) →
      atoms.Pairwise (fun a b => Disjoint (S.pts a) (S.pts b)) →
      (∀ a ∈ atoms, S.solver_inside E R a flags) →
      ∃ r1 e1 c1,
        ((atoms.map some).foldl (visit E (some R) flags) st).res = some r1 ∧
        ((atoms.map some).foldl (visit E (some R) flags) st).empty = some c1 ∧
        ((atoms.map some).foldl (visit E (some R) flags) st).all_empty = some (some e1) ∧
        (∀ z, z ∈ S.graph r1 ↔ z ∈ S.graph r ∨ ∃ a ∈ atoms, ∃ r_a,
          (E.isl_tab_basic_map_partial_lexopt (some R) (some a) true flags).1 = some r_a ∧
            z ∈ S.graph r_a) ∧
        (∀ x, x ∈ S.set_pts e1 ↔ x ∈ S.set_pts e ∨ ∃ a ∈ atoms, ∃ e_a,
          (E.isl_tab_basic_map_partial_lexopt (some R) (some a) true flags).2 = some e_a ∧
            x ∈ S.set_pts e_a) := by
  induction atoms with
  | nil =>
    intro st U r e c hr hc he _ _ _ _ _
    exact ⟨r, e, c, by simpa using hr, by simpa using hc, by simpa using he,
      by simp, by simp⟩
  | cons a atoms ih =>
    intro st U r e c hr hc he hrU heU hdU hpw hsol
    obtain ⟨r_a, e_a, hs, hra, hea⟩ := hsol a (List.mem_cons_self _ _)
    have hUa : Disjoint U (S.pts a) := hdU a (List.mem_cons_self _ _)
    obtain ⟨v1, v2, v3⟩ := visit_slot E (some R) (some a) flags st c hc
    rw [hs] at v1 v2 v3
    have hd1 : Disjoint (S.rdom r) (S.rdom r_a) :=
      Set.disjoint_of_subset hrU hra hUa
    have hd2 : Disjoint (S.set_pts e) (S.set_pts e_a) :=
      Set.disjoint_of_subset heU hea hUa
    obtain ⟨r2, hr2, hg2⟩ := hADD r r_a hd1
    obtain ⟨e2, he2, hp2⟩ := hUn e e_a hd2
    have hread : st.read_all_empty = some e := by simp [Acc.read_all_empty, he]
    simp only [hr, hread] at v1 v3
    rw [hr2] at v1
    rw [he2] at v3
    have hpw1 := List.pairwise_cons.mp hpw
    have hrU2 : S.rdom r2 ⊆ U ∪ S.pts a := by
      intro x hx
      obtain ⟨y, hy⟩ := hx
      rw [hg2] at hy
      rcases hy with hy | hy
      · exact Or.inl (hrU ⟨y, hy⟩)
      · exact Or.inr (hra ⟨y, hy⟩)
    have heU2 : S.set_pts e2 ⊆ U ∪ S.pts a := by
      rw [hp2]
      exact Set.union_subset_union heU hea
    have hdU2 : ∀ b ∈ atoms, Disjoint (U ∪ S.pts a) (S.pts b) := by
      intro b hb
      rw [Set.disjoint_union_left]
      exact ⟨hdU b (List.mem_cons_of_mem _ hb), hpw1.1 b hb⟩
    obtain ⟨r1, e1, c1, f1, f2, f3, f4, f5⟩ :=
      ih (visit E (some R) flags st (some a)) (U ∪ S.pts a) r2 e2 (some e_a) v1 v2 v3
        hrU2 heU2 hdU2 hpw1.2 (fun b hb => hsol b (List.mem_cons_of_mem _ hb))
    refine ⟨r1, e1, c1, by simpa using f1, by simpa using f2, by simpa using f3, ?_, ?_⟩
    · intro z
      rw [f4 z, hg2]
      constructor
      · rintro ((h | h) | ⟨b, hb, h⟩)
        · exact Or.inl h
        · exact Or.inr ⟨a, List.mem_cons_self _ _, r_a, by rw [hs], h⟩
        · exact Or.inr ⟨b, List.mem_cons_of_mem _ hb, h⟩
      · rintro (h | ⟨b, hb, q, hq, h⟩)
        · exact Or.inl (Or.inl h)
        · rcases List.mem_cons.mp hb with hb | hb
          · subst hb
            rw [hs] at hq
            cases hq
            exact Or.inl (Or.inr h)
          · exact Or.inr ⟨b, hb, q, hq, h⟩
    · intro x
      rw [f5 x, hp2]
      constructor
      · rintro ((h | h) | ⟨b, hb, h⟩)
        · exact Or.inl h
        · exact Or.inr ⟨a, List.mem_cons_self _ _, e_a, by rw [hs], h⟩
        · exact Or.inr ⟨b, List.mem_cons_of_mem _ hb, h⟩
      · rintro (h | ⟨b, hb, q, hq, h⟩)
        · exact Or.inl (Or.inl h)
        · rcases List.mem_cons.mp hb with hb | hb
          · subst hb
            rw [hs] at hq
            cases hq
            exact Or.inl (Or.inr h)
          · exact Or.inr ⟨b, hb, q, hq, h⟩

theorem engine_nil (E : Env Space BMap TYPE) (bmap : Option BMap)
    (dom : Option (isl_set Space BMap)) (dj : isl_set Space BMap)
    (empty : Slot Space BMap) (flags : Nat)
    (hd : E.isl_set_make_disjoint dom = some dj) (hp : dj.p = []) :
    basic_map_partial_lexopt E bmap dom empty flags =
      { res := E.EMPTY (E.isl_basic_map_get_space bmap)
        empty := empty.store (some dj)
        calls := [Call.set_make_disjoint dom,
          Call.EMPTY (E.isl_basic_map_get_space bmap)] } := by
  simp [basic_map_partial_lexopt, hd, isl_set_plain_is_empty, isl_map.n, hp]

theorem engine_cons (E : Env Space BMap TYPE) (bmap : Option BMap)
    (dom : Option (isl_set Space BMap)) (dj : isl_set Space BMap)
    (empty : Slot Space BMap) (flags : Nat) (a0 : BMap) (rest : List BMap)
    (hd : E.isl_set_make_disjoint dom = some dj) (hp : dj.p = a0 :: rest) :
    basic_map_partial_lexopt E bmap dom empty flags =
      finish ((rest.map some).foldl (visit E bmap flags)
        (first E bmap dom (some a0) empty flags)) := by
  have hne : isl_set_plain_is_empty dj = false := by
    simp [isl_set_plain_is_empty, isl_map.n, hp]
  have h0 : dj.p[0]? = some a0 := by simp [hp]
  simp only [basic_map_partial_lexopt, hd, hne, h0, Bool.false_eq_true, if_false,
    loop_eq_fold_visit E bmap dj flags _ a0 rest hp, finish, first]

theorem engine_sem (S : Sem BMap TYPE X Y) (E : Env Space BMap TYPE) (R : BMap)
    (D dj : isl_set Space BMap) (c : Option (isl_set Space BMap)) (flags : Nat)
    (hdj : S.disjointifies E D dj) (hADD : S.ADD_is_union E) (hUn : S.union_is_union E)
    (hE : S.EMPTY_is_empty E R) (hsol : ∀ a ∈ dj.p, S.solver_inside E R a flags) :
    ∃ r e, (basic_map_partial_lexopt E (some R) (some D) (some c) flags).res = some r ∧
      (basic_map_partial_lexopt E (some R) (some D) (some c) flags).empty = some (some e) ∧
      (∀ z, z ∈ S.graph r ↔ ∃ a ∈ dj.p, ∃ r_a,
        (E.isl_tab_basic_map_partial_lexopt (some R) (some a) true flags).1 = some r_a ∧
          z ∈ S.graph r_a) ∧
      (∀ x, x ∈ S.set_pts e ↔ ∃ a ∈ dj.p, ∃ e_a,
        (E.isl_tab_basic_map_partial_lexopt (some R) (some a) true flags).2 = some e_a ∧
          x ∈ S.set_pts e_a) := by
  obtain ⟨hd, hpw, _⟩ := hdj
  cases hp : dj.p with
  | nil =>
    obtain ⟨r, hr, hg⟩ := hE
    rw [engine_nil E (some R) (some D) dj (some c) flags hd hp]
    refine ⟨r, dj, hr, rfl, ?_, ?_⟩
    · intro z
      simp [hg]
    · intro x
      simp [Sem.set_pts, hp]
  | cons a0 rest =>
    rw [hp] at hpw hsol
    have hpw1 := List.pairwise_cons.mp hpw
    obtain ⟨r0, e0, hs, hr0, he0⟩ := hsol a0 (List.mem_cons_self _ _)
    rw [engine_cons E (some R) (some D) dj (some c) flags a0 rest hd hp]
    have hst : first E (some R) (some D) (some a0) (some c) flags =
        { res := some r0, empty := some (some e0), all_empty := some (some e0),
          calls := Call.set_make_disjoint (some D) ::
            [Call.tab_basic_map_partial_lexopt (some R) (some a0) true flags] } := by
      simp [first, isl_basic_map_partial_lexopt, hs, Slot.store]
    rw [hst]
    obtain ⟨r1, e1, c1, f1, f2, f3, f4, f5⟩ :=
      fold_visit_sem S E R flags hADD hUn rest
        { res := some r0, empty := some (some e0), all_empty := some (some e0),
          calls := Call.set_make_disjoint (some D) ::
            [Call.tab_basic_map_partial_lexopt (some R) (some a0) true flags] }
        (S.pts a0) r0 e0 (some e0) rfl rfl rfl hr0 he0 hpw1.1 hpw1.2
        (fun b hb => hsol b (List.mem_cons_of_mem _ hb))
    refine ⟨r1, e1, f1, ?_, ?_, ?_⟩
    · simp [finish, f2, Slot.store, Acc.read_all_empty, f3]
    · intro z
      rw [f4 z]
      constructor
      · rintro (h | ⟨b, hb, h⟩)
        · exact ⟨a0, List.mem_cons_self _ _, r0, by rw [hs], h⟩
        · exact ⟨b, List.mem_cons_of_mem _ hb, h⟩
      · rintro ⟨b, hb, q, hq, h⟩
        rcases List.mem_cons.mp hb with hb | hb
        · subst hb
          rw [hs] at hq
          cases hq
          exact Or.inl h
        · exact Or.inr ⟨b, hb, q, hq, h⟩
    · intro x
      rw [f5 x]
      constructor
      · rintro (h | ⟨b, hb, h⟩)
        · exact ⟨a0, List.mem_cons_self _ _, e0, by rw [hs], h⟩
        · exact ⟨b, List.mem_cons_of_mem _ hb, h⟩
      · rintro ⟨b, hb, q, hq, h⟩
        rcases List.mem_cons.mp hb with hb | hb
        · subst hb
          rw [hs] at hq
          cases hq
          exact Or.inl h
        · exact Or.inr ⟨b, hb, q, hq, h⟩

/-! ## The concrete instantiation satisfies the contracts -/

theorem toy_ADD_is_union : Toy.sem.ADD_is_union Toy.env := by
  intro a b _
  refine ⟨{ dim := a.dim, p := a.p ++ b.p }, rfl, ?_⟩
  ext z
  simp only [Toy.sem, Set.mem_setOf_eq, List.mem_append, Set.mem_union]
  constructor
  · rintro ⟨q, hq | hq, h⟩
    · exact Or.inl ⟨q, hq, h⟩
    · exact Or.inr ⟨q, hq, h⟩
  · rintro (⟨q, hq, h⟩ | ⟨q, hq, h⟩)
    · exact ⟨q, Or.inl hq, h⟩
    · exact ⟨q, Or.inr hq, h⟩

theorem toy_union_is_union : Toy.sem.union_is_union Toy.env := by
  intro a b _
  refine ⟨{ dim := a.dim, p := a.p ++ b.p }, rfl, ?_⟩
  ext x
  simp only [Sem.set_pts, Set.mem_setOf_eq, List.mem_append, Set.mem_union]
  constructor
  · rintro ⟨q, hq | hq, h⟩
    · exact Or.inl ⟨q, hq, h⟩
    · exact Or.inr ⟨q, hq, h⟩
  · rintro (⟨q, hq, h⟩ | ⟨q, hq, h⟩)
    · exact ⟨q, Or.inl hq, h⟩
    · exact ⟨q, Or.inr hq, h⟩

theorem toy_EMPTY_is_empty (R : Toy.Piece) : Toy.sem.EMPTY_is_empty Toy.env R := by
  refine ⟨{ dim := R.dim, p := [] }, rfl, ?_⟩
  ext z
  simp [Toy.sem]

theorem toy_solver_partitions (R a : Toy.Piece) (flags : Nat) :
    Toy.sem.solver_partitions Toy.env R a flags := by
  refine ⟨_, _, rfl, ?_, ?_⟩
  · rw [Set.disjoint_left]
    rintro x ⟨y, q, hq, h1, _⟩ ⟨q2, hq2, h2⟩
    simp only [List.mem_singleton] at hq hq2
    subst hq
    subst hq2
    simp only [Toy.sem, Set.mem_setOf_eq] at h1 h2
    simp only [Bool.and_eq_true, Bool.not_eq_true', decide_eq_true_eq] at h1 h2
    have h3 := h2.2
    simp [h1.2] at h3
  · ext x
    simp only [Sem.rdom, Sem.set_pts, Toy.sem, Set.mem_union, Set.mem_setOf_eq,
      List.mem_singleton, exists_eq_left]
    constructor
    · rintro (⟨y, h, _⟩ | h)
      · simp only [Bool.and_eq_true] at h
        exact h.1
      · simp only [Bool.and_eq_true] at h
        exact h.1
    · intro h
      by_cases hf : (R.inp x && decide (R.lo ≤ R.hi)) = true
      · left
        simp only [Bool.and_eq_true, decide_eq_true_eq] at hf
        refine ⟨[if flags &&& 1 != 0 then R.hi else R.lo], ?_, _, rfl, le_refl _, le_refl _⟩
        simp [h, hf]
      · right
        simp only [Bool.not_eq_true] at hf
        simp [h, hf]

/-- C1 (partition-completeness).  Let disjointification turn the domain
union `D` into pairwise-disjoint atoms with the point set of `D`, let the
Atom Solver split every atom into the domain of its result and its
infeasible region, and let `ADD`, `isl_set_union_disjoint` and `EMPTY` be
union, union and the empty result.  Then, for any flags, with an
infeasible-region slot, `basic_map_partial_lexopt` returns a result and an
infeasible region such that the domain covered by the result and the
infeasible region are disjoint and their union is exactly the point set of
`D`. -/
theorem partition_completeness (S : Sem BMap TYPE X Y) (E : Env Space BMap TYPE) (R : BMap)
    (D dj : isl_set Space BMap) (c : Option (isl_set Space BMap)) (flags : Nat)
    (hdj : S.disjointifies E D dj)
    (hsol : ∀ a ∈ dj.p, S.solver_partitions E R a flags)
    (hADD : S.ADD_is_union E) (hUn : S.union_is_union E) (hE : S.EMPTY_is_empty E R) :
    ∃ r e, (basic_map_partial_lexopt E (some R) (some D) (some c) flags).res = some r ∧
      (basic_map_partial_lexopt E (some R) (some D) (some c) flags).empty = some (some e) ∧
      Disjoint (S.rdom r) (S.set_pts e) ∧
      S.rdom r ∪ S.set_pts e = S.set_pts D := by
  have hin : ∀ a ∈ dj.p, S.solver_inside E R a flags := by
    intro a ha
    obtain ⟨r, e, hs, _, hu⟩ := hsol a ha
    exact ⟨r, e, hs, hu ▸ Set.subset_union_left, hu ▸ Set.subset_union_right⟩
  obtain ⟨r, e, hr, he, hg, hp⟩ := engine_sem S E R D dj c flags hdj hADD hUn hE hin
  obtain ⟨_, hpw, hD⟩ := hdj
  have hsym : Symmetric (fun a b : BMap => Disjoint (S.pts a) (S.pts b)) :=
    fun _ _ h => h.symm
  refine ⟨r, e, hr, he, ?_, ?_⟩
  · rw [Set.disjoint_left]
    rintro x ⟨y, hy⟩ hx
    obtain ⟨a, ha, r_a, hra, hya⟩ := (hg (x, y)).mp hy
    obtain ⟨b, hb, e_b, heb, hxb⟩ := (hp x).mp hx
    obtain ⟨r1, e1, hs1, hd1, hu1⟩ := hsol a ha
    obtain ⟨r2, e2, hs2, hd2, hu2⟩ := hsol b hb
    rw [hs1] at hra
    rw [hs2] at heb
    cases hra
    cases heb
    have hxa : x ∈ S.pts a := hu1 ▸ Or.inl ⟨y, hya⟩
    have hxb2 : x ∈ S.pts b := hu2 ▸ Or.inr hxb
    by_cases hab : a = b
    · subst hab
      rw [hs1] at hs2
      cases hs2
      exact Set.disjoint_left.mp hd1 ⟨y, hya⟩ hxb
    · exact Set.disjoint_left.mp (hpw.forall hsym ha hb hab) hxa hxb2
  · rw [← hD]
    ext x
    constructor
    · rintro (⟨y, hy⟩ | hx)
      · obtain ⟨a, ha, r_a, hra, hya⟩ := (hg (x, y)).mp hy
        obtain ⟨r1, e1, hs1, _, hu1⟩ := hsol a ha
        rw [hs1] at hra
        cases hra
        exact ⟨a, ha, hu1 ▸ Or.inl ⟨y, hya⟩⟩
      · obtain ⟨b, hb, e_b, heb, hxb⟩ := (hp x).mp hx
        obtain ⟨r2, e2, hs2, _, hu2⟩ := hsol b hb
        rw [hs2] at heb
        cases heb
        exact ⟨b, hb, hu2 ▸ Or.inr hxb⟩
    · rintro ⟨a, ha, hxa⟩
      obtain ⟨r1, e1, hs1, _, hu1⟩ := hsol a ha
      rw [← hu1] at hxa
      rcases hxa with ⟨y, hy⟩ | hx
      · exact Or.inl ⟨y, (hg (x, y)).mpr ⟨a, ha, r1, by rw [hs1], hy⟩⟩
      · exact Or.inr ((hp x).mpr ⟨a, ha, e1, by rw [hs1], hx⟩)

theorem toy_disjointifies_one (a : Toy.Piece) :
    Toy.sem.disjointifies Toy.env (Toy.region [a])
      { dim := Toy.sp, p := Toy.disjoint_pieces [] [a] } := by
  refine ⟨rfl, ?_, ?_⟩
  · simp [Toy.disjoint_pieces]
  · ext x
    simp [Sem.set_pts, Toy.region, Toy.disjoint_pieces, Toy.sem]

theorem toy_scenario_cut :
    ∃ r e, (basic_map_partial_lexopt Toy.env (some (Toy.band (some 10) 0 10))
          (some (Toy.region [Toy.interval 0 20])) (some none) 0).res = some r ∧
      (basic_map_partial_lexopt Toy.env (some (Toy.band (some 10) 0 10))
          (some (Toy.region [Toy.interval 0 20])) (some none) 0).empty = some (some e) ∧
      (∀ x, x ∈ Toy.sem.rdom r ↔ (0 ≤ x ∧ x ≤ 10)) ∧
      (∀ x, x ∈ Toy.sem.set_pts e ↔ (10 < x ∧ x ≤ 20)) := by
  refine ⟨_, _, rfl, rfl, ?_, ?_⟩
  · intro x
    simp only [Sem.rdom, Toy.sem, Toy.env, Toy.env0, Toy.tab, Toy.union, Toy.band,
      Toy.interval, Toy.disjoint_pieces, visit, isl_basic_map_partial_lexopt, Slot.store]
    simp
    constructor
    · rintro ⟨⟨⟨h1, _⟩, h2⟩, _⟩
      exact ⟨h1, h2⟩
    · rintro ⟨h1, h2⟩
      exact ⟨⟨⟨h1, by omega⟩, h2⟩, [0], 0, rfl, le_refl _, le_refl _⟩
  · intro x
    simp only [Sem.set_pts, Toy.sem, Toy.env, Toy.env0, Toy.tab, Toy.union, Toy.band,
      Toy.interval, Toy.disjoint_pieces, visit, isl_basic_map_partial_lexopt, Slot.store,
      Acc.read_all_empty]
    simp
    omega

/-- Witness of C1 on the scenario `R = {x -> y : x ≤ 10, 0 ≤ y ≤ 10}`,
`D = {x : 0 ≤ x ≤ 20}`: the contracts hold for the concrete instantiation,
the result and infeasible region split `D`, the result covers `0 ≤ x ≤ 10`
and the infeasible region is `10 < x ≤ 20`. -/
theorem partition_completeness_witness :
    Toy.sem.disjointifies Toy.env (Toy.region [Toy.interval 0 20])
        { dim := Toy.sp, p := Toy.disjoint_pieces [] [Toy.interval 0 20] } ∧
      (∃ r e, (basic_map_partial_lexopt Toy.env (some (Toy.band (some 10) 0 10))
          (some (Toy.region [Toy.interval 0 20])) (some none) 0).res = some r ∧
        (basic_map_partial_lexopt Toy.env (some (Toy.band (some 10) 0 10))
          (some (Toy.region [Toy.interval 0 20])) (some none) 0).empty = some (some e) ∧
        Disjoint (Toy.sem.rdom r) (Toy.sem.set_pts e) ∧
        Toy.sem.rdom r ∪ Toy.sem.set_pts e =
          Toy.sem.set_pts (Toy.region [Toy.interval 0 20])) ∧
      ∃ r e, (basic_map_partial_lexopt Toy.env (some (Toy.band (some 10) 0 10))
          (some (Toy.region [Toy.interval 0 20])) (some none) 0).res = some r ∧
        (basic_map_partial_lexopt Toy.env (some (Toy.band (some 10) 0 10))
          (some (Toy.region [Toy.interval 0 20])) (some none) 0).empty = some (some e) ∧
        (∀ x, x ∈ Toy.sem.rdom r ↔ (0 ≤ x ∧ x ≤ 10)) ∧
        (∀ x, x ∈ Toy.sem.set_pts e ↔ (10 < x ∧ x ≤ 20)) :=
  ⟨toy_disjointifies_one _,
    partition_completeness Toy.sem Toy.env (Toy.band (some 10) 0 10)
      (Toy.region [Toy.interval 0 20])
      { dim := Toy.sp, p := Toy.disjoint_pieces [] [Toy.interval 0 20] } none 0
      (toy_disjointifies_one _) (fun a _ => toy_solver_partitions _ a 0)
      toy_ADD_is_union toy_union_is_union (toy_EMPTY_is_empty _),
    toy_scenario_cut⟩

/-! ## The result component of the loop -/

theorem visit_res (E : Env Space BMap TYPE) (bmap a : Option BMap) (flags : Nat)
    (st : Acc Space BMap TYPE) :
    (visit E bmap flags st a).res =
        E.ADD st.res (E.isl_tab_basic_map_partial_lexopt bmap a st.empty.isSome flags).1 ∧
      (visit E bmap flags st a).empty.isSome = st.empty.isSome := by
  cases h : st.empty <;> simp [visit, isl_basic_map_partial_lexopt, Slot.store, h]

theorem fold_visit_res (E : Env Space BMap TYPE) (bmap : Option BMap) (flags : Nat)
    (atoms : List (Option BMap)) :
    ∀ st : Acc Space BMap TYPE,
      (atoms.foldl (visit E bmap flags) st).res =
        fold_res E bmap st.empty.isSome flags st.res atoms := by
  induction atoms with
  | nil => intro st; rfl
  | cons a atoms ih =>
    intro st
    obtain ⟨h1, h2⟩ := visit_res E bmap a flags st
    simp only [List.foldl_cons, fold_res]
    rw [ih, h1, h2]
    rfl

theorem first_res (E : Env Space BMap TYPE) (bmap : Option BMap)
    (dom : Option (isl_set Space BMap)) (a0 : Option BMap) (empty : Slot Space BMap)
    (flags : Nat) :
    (first E bmap dom a0 empty flags).res =
        (E.isl_tab_basic_map_partial_lexopt bmap a0 empty.isSome flags).1 ∧
      (first E bmap dom a0 empty flags).empty.isSome = empty.isSome := by
  cases h : empty <;> simp [first, isl_basic_map_partial_lexopt, Slot.store]

theorem engine_res (E : Env Space BMap TYPE) (bmap : Option BMap)
    (dom : Option (isl_set Space BMap)) (dj : isl_set Space BMap)
    (empty : Slot Space BMap) (flags : Nat) (a0 : BMap) (rest : List BMap)
    (hd : E.isl_set_make_disjoint dom = some dj) (hp : dj.p = a0 :: rest) :
    (basic_map_partial_lexopt E bmap dom empty flags).res =
      fold_res E bmap empty.isSome flags
        (E.isl_tab_basic_map_partial_lexopt bmap (some a0) empty.isSome flags).1
        (rest.map some) := by
  obtain ⟨h1, h2⟩ := first_res E bmap dom (some a0) empty flags
  rw [engine_cons E bmap dom dj empty flags a0 rest hd hp]
  simp only [finish]
  rw [fold_visit_res, h1, h2]

theorem lex_le_antisymm : ∀ a b : Tuple, lex_le a b = true → lex_le b a = true → a = b := by
  intro a
  induction a with
  | nil =>
    intro b _ h2
    cases b with
    | nil => rfl
    | cons y ys => simp [lex_le] at h2
  | cons x xs ih =>
    intro b h1 h2
    cases b with
    | nil => simp [lex_le] at h1
    | cons y ys =>
      simp only [lex_le, Bool.or_eq_true, decide_eq_true_eq, Bool.and_eq_true,
        beq_iff_eq] at h1 h2
      rcases h1 with h1 | ⟨h1, h1t⟩
      · rcases h2 with h2 | ⟨h2, _⟩
        · omega
        · omega
      · rcases h2 with h2 | ⟨_, h2t⟩
        · omega
        · rw [h1, ih ys h1t h2t]

theorem lex_better_antisymm (mx : Bool) (a b : Tuple) (h1 : lex_better mx a b)
    (h2 : lex_better mx b a) : a = b := by
  cases mx
  · exact lex_le_antisymm a b (by simpa [lex_better] using h1) (by simpa [lex_better] using h2)
  · exact lex_le_antisymm a b (by simpa [lex_better] using h2) (by simpa [lex_better] using h1)

theorem fold_res_exact (S : Sem BMap TYPE X Tuple) (E : Env Space BMap TYPE) (R : BMap)
    (b : Bool) (flags : Nat) (hADD : S.ADD_is_union E) (atoms : List BMap) :
    ∀ (U : Set X) (r : TYPE),
      S.exact_on (E.is_max flags) R U (S.graph r) →
      (∀ a ∈ atoms, Disjoint U (S.pts a)) →
      atoms.Pairwise (fun a b => Disjoint (S.pts a) (S.pts b)) →
      (∀ a ∈ atoms, S.solver_exact E R a b flags) →
      ∃ r1, fold_res E (some R) b flags (some r) (atoms.map some) = some r1 ∧
        S.exact_on (E.is_max flags) R {x | x ∈ U ∨ ∃ a ∈ atoms, x ∈ S.pts a} (S.graph r1) := by
  induction atoms with
  | nil =>
    intro U r hex _ _ _
    refine ⟨r, rfl, ?_⟩
    simpa using hex
  | cons a atoms ih =>
    intro U r hex hdU hpw hsol
    obtain ⟨r_a, hs, hexa⟩ := hsol a (List.mem_cons_self _ _)
    have hUa : Disjoint U (S.pts a) := hdU a (List.mem_cons_self _ _)
    have hrU : S.rdom r ⊆ U := fun x ⟨y, hy⟩ => ((hex.1 x y).mp hy).1
    have hra : S.rdom r_a ⊆ S.pts a := fun x ⟨y, hy⟩ => ((hexa.1 x y).mp hy).1
    obtain ⟨r2, hr2, hg2⟩ := hADD r r_a (Set.disjoint_of_subset hrU hra hUa)
    have hpw1 := List.pairwise_cons.mp hpw
    have hex2 : S.exact_on (E.is_max flags) R (U ∪ S.pts a) (S.graph r2) := by
      constructor
      · intro x y
        rw [hg2, Set.mem_union, hex.1 x y, hexa.1 x y, Set.mem_union]
        tauto
      · intro x hx hf
        rcases hx with hx | hx
        · obtain ⟨y, hy⟩ := hex.2 x hx hf
          exact ⟨y, hg2 ▸ Or.inl hy⟩
        · obtain ⟨y, hy⟩ := hexa.2 x hx hf
          exact ⟨y, hg2 ▸ Or.inr hy⟩
    have hdU2 : ∀ c ∈ atoms, Disjoint (U ∪ S.pts a) (S.pts c) := by
      intro c hc
      rw [Set.disjoint_union_left]
      exact ⟨hdU c (List.mem_cons_of_mem _ hc), hpw1.1 c hc⟩
    obtain ⟨r1, hr1, hex1⟩ := ih (U ∪ S.pts a) r2 hex2 hdU2 hpw1.2
      (fun c hc => hsol c (List.mem_cons_of_mem _ hc))
    refine ⟨r1, ?_, ?_⟩
    · simp only [fold_res, List.map_cons, List.foldl_cons, hs, hr2]
      exact hr1
    · have hset : {x | x ∈ U ∨ ∃ c ∈ a :: atoms, x ∈ S.pts c} =
          {x | x ∈ U ∪ S.pts a ∨ ∃ c ∈ atoms, x ∈ S.pts c} := by
        ext x
        simp only [Set.mem_setOf_eq, List.mem_cons, exists_eq_or_imp, Set.mem_union]
        tauto
      rw [hset]
      exact hex1

/-- C2 (exactness of the composed optimum).  Let disjointification turn the
domain union `D` (its pieces may overlap) into pairwise-disjoint atoms with
the point set of `D`, let the Atom Solver be exact on every atom, and let
`ADD` be union and `EMPTY` the empty result.  Then, with or without an
infeasible-region slot and for any flags, `basic_map_partial_lexopt` returns
a result that maps every input tuple of `D` with a feasible image to exactly
one output tuple, and a pair is in the result exactly if its input tuple is
in `D` and its output tuple is the lexicographic optimum (minimum, or maximum
when the flags include `ISL_OPT_MAX`) of the image of the input under `R`. -/
theorem composed_optimum_exact (S : Sem BMap TYPE X Tuple) (E : Env Space BMap TYPE)
    (R : BMap) (D dj : isl_set Space BMap) (empty : Slot Space BMap) (flags : Nat)
    (hdj : S.disjointifies E D dj)
    (hsol : ∀ a ∈ dj.p, S.solver_exact E R a empty.isSome flags)
    (hADD : S.ADD_is_union E) (hE : S.EMPTY_is_empty E R) :
    ∃ r, (basic_map_partial_lexopt E (some R) (some D) empty flags).res = some r ∧
      (∀ x ∈ S.set_pts D, (∃ y, (x, y) ∈ S.rel R) → ∃! y, (x, y) ∈ S.graph r) ∧
      (∀ x y, (x, y) ∈ S.graph r ↔
        x ∈ S.set_pts D ∧ S.is_lexopt (E.is_max flags) R x y) := by
  obtain ⟨hd, hpw, hD⟩ := hdj
  have key : ∃ r, (basic_map_partial_lexopt E (some R) (some D) empty flags).res = some r ∧
      S.exact_on (E.is_max flags) R (S.set_pts D) (S.graph r) := by
    cases hp : dj.p with
    | nil =>
      obtain ⟨r, hr, hg⟩ := hE
      rw [engine_nil E (some R) (some D) dj empty flags hd hp]
      refine ⟨r, hr, ?_⟩
      have hempty : S.set_pts D = ∅ := by
        rw [← hD]
        ext x
        simp [Sem.set_pts, hp]
      rw [hempty, hg]
      constructor
      · intro x y
        simp
      · intro x hx
        exact absurd hx (Set.not_mem_empty x)
    | cons a0 rest =>
      rw [hp] at hpw hsol
      have hpw1 := List.pairwise_cons.mp hpw
      obtain ⟨r0, hs, hex0⟩ := hsol a0 (List.mem_cons_self _ _)
      rw [engine_res E (some R) (some D) dj empty flags a0 rest hd hp, hs]
      obtain ⟨r1, hr1, hex1⟩ := fold_res_exact S E R empty.isSome flags hADD rest
        (S.pts a0) r0 hex0 hpw1.1 hpw1.2 (fun c hc => hsol c (List.mem_cons_of_mem _ hc))
      refine ⟨r1, hr1, ?_⟩
      have hset : S.set_pts D = {x | x ∈ S.pts a0 ∨ ∃ c ∈ rest, x ∈ S.pts c} := by
        rw [← hD]
        ext x
        simp [Sem.set_pts, hp]
      rw [hset]
      exact hex1
  obtain ⟨r, hr, hex⟩ := key
  refine ⟨r, hr, ?_, hex.1⟩
  intro x hx hf
  obtain ⟨y, hy⟩ := hex.2 x hx hf
  refine ⟨y, hy, ?_⟩
  intro y1 hy1
  have h1 := ((hex.1 x y).mp hy).2
  have h2 := ((hex.1 x y1).mp hy1).2
  exact lex_better_antisymm (E.is_max flags) y1 y (h2.2 y h1.1) (h1.2 y1 h2.1)

theorem lex_le_singleton (u v : Int) : lex_le [u] [v] = true ↔ u ≤ v := by
  simp only [lex_le, Bool.and_true, Bool.or_eq_true, decide_eq_true_eq, beq_iff_eq]
  omega

theorem toy_graph_tab (R a : Toy.Piece) (b : Bool) (flags : Nat) (x : Int) (y : Tuple) :
    (∃ r, (Toy.env.isl_tab_basic_map_partial_lexopt (some R) (some a) b flags).1 = some r ∧
        (x, y) ∈ Toy.sem.graph r) ↔
      a.inp x = true ∧ R.inp x = true ∧ R.lo ≤ R.hi ∧
        y = [if (flags &&& 1 != 0) = true then R.hi else R.lo] := by
  constructor
  · rintro ⟨r, hr, q, hq, h1, v, hv, h2, h3⟩
    cases hr
    simp only [List.mem_singleton] at hq
    subst hq
    simp only [Bool.and_eq_true, decide_eq_true_eq] at h1
    refine ⟨h1.1, h1.2.1, h1.2.2, ?_⟩
    have hv1 : y = [v] := hv
    have h23 : v = if (flags &&& 1 != 0) = true then R.hi else R.lo := le_antisymm h3 h2
    rw [hv1, h23]
  · rintro ⟨h1, h2, h3, h4⟩
    refine ⟨_, rfl, _, List.mem_singleton.mpr rfl, ?_, _, h4, le_refl _, le_refl _⟩
    simp [h1, h2, h3]

theorem toy_solver_exact (R a : Toy.Piece) (b : Bool) (flags : Nat) :
    Toy.sem.solver_exact Toy.env R a b flags := by
  refine ⟨_, rfl, ?_, ?_⟩
  · intro x y
    have hg := toy_graph_tab R a b flags x y
    simp only [Toy.env, Toy.env0, Toy.tab, Option.some.injEq, exists_eq_left'] at hg
    rw [hg]
    have hmx : Toy.env.is_max flags = (flags &&& 1 != 0) := rfl
    rw [hmx]
    simp only [Sem.is_lexopt, Toy.sem, Set.mem_setOf_eq]
    constructor
    · rintro ⟨h1, h2, h3, h4⟩
      refine ⟨h1, ⟨h2, _, h4, ?_, ?_⟩, ?_⟩
      · split <;> omega
      · split <;> omega
      · rintro y1 ⟨_, v1, hv1, h5, h6⟩
        rw [h4, hv1]
        cases hm : (flags &&& 1 != 0)
        · simp only [lex_better, Bool.false_eq_true, if_false]
          exact (lex_le_singleton _ _).mpr h5
        · simp only [lex_better, if_true]
          exact (lex_le_singleton _ _).mpr h6
    · rintro ⟨h1, ⟨h2, v, hv, h3, h4⟩, h5⟩
      refine ⟨h1, h2, le_trans h3 h4, ?_⟩
      rw [hv]
      cases hm : (flags &&& 1 != 0)
      · have h6 := h5 [R.lo] ⟨h2, R.lo, rfl, le_refl _, le_trans h3 h4⟩
        rw [hm, hv] at h6
        simp only [lex_better, Bool.false_eq_true, if_false] at h6
        have h7 := (lex_le_singleton _ _).mp h6
        simp only [Bool.false_eq_true, if_false]
        rw [le_antisymm h7 h3]
      · have h6 := h5 [R.hi] ⟨h2, R.hi, rfl, le_trans h3 h4, le_refl _⟩
        rw [hm, hv] at h6
        simp only [lex_better, if_true] at h6
        have h7 := (lex_le_singleton _ _).mp h6
        simp only [if_true]
        rw [le_antisymm h4 h7]
  · rintro x hx ⟨y, h2, v, _, h3, h4⟩
    obtain ⟨r, hr, hin⟩ := (toy_graph_tab R a b flags x _).mpr ⟨hx, h2, le_trans h3 h4, rfl⟩
    cases hr
    exact ⟨_, hin⟩

theorem toy_disjointifies_two (a b : Toy.Piece) :
    Toy.sem.disjointifies Toy.env (Toy.region [a, b])
      { dim := Toy.sp, p := Toy.disjoint_pieces [] [a, b] } := by
  refine ⟨rfl, ?_, ?_⟩
  · simp only [Toy.disjoint_pieces, List.pairwise_cons, List.mem_singleton, forall_eq,
      List.not_mem_nil, false_implies, implies_true, List.Pairwise.nil, and_true]
    rw [Set.disjoint_left]
    intro x h1 h2
    simp only [Toy.sem, Set.mem_setOf_eq] at h1 h2
    simp at h1 h2
    rw [h1] at h2
    simp at h2
  · ext x
    simp only [Sem.set_pts, Toy.region, Toy.disjoint_pieces, Toy.sem, Set.mem_setOf_eq]
    simp
    by_cases h : a.inp x = true <;> simp [h]

theorem toy_scenario_overlap :
    ∃ r e, (basic_map_partial_lexopt Toy.env (some (Toy.band none 0 10))
          (some (Toy.region [Toy.interval 0 5, Toy.interval 3 8])) (some none) 0).res = some r ∧
      (basic_map_partial_lexopt Toy.env (some (Toy.band none 0 10))
          (some (Toy.region [Toy.interval 0 5, Toy.interval 3 8])) (some none) 0).empty
        = some (some e) ∧
      (∀ x y, (x, y) ∈ Toy.sem.graph r ↔ (0 ≤ x ∧ x ≤ 8 ∧ y = [0])) ∧
      Toy.sem.set_pts e = ∅ := by
  refine ⟨_, _, rfl, rfl, ?_, ?_⟩
  · intro x y
    have hv : (∃ v : Int, y = [v] ∧ 0 ≤ v ∧ v ≤ 0) ↔ y = [0] :=
      ⟨fun ⟨v, h, h1, h2⟩ => by rw [h, le_antisymm h2 h1], fun h => ⟨0, h, le_refl _, le_refl _⟩⟩
    simp only [Toy.sem, Toy.env, Toy.env0, Toy.tab, Toy.union, Toy.band, Toy.interval,
      Toy.disjoint_pieces, visit, isl_basic_map_partial_lexopt, Slot.store]
    simp
    rw [hv]
    constructor
    · rintro (⟨⟨h1, h2⟩, h3⟩ | ⟨⟨⟨h1, h2⟩, _⟩, h3⟩)
      · exact ⟨h1, by omega, h3⟩
      · exact ⟨by omega, h2, h3⟩
    · rintro ⟨h1, h2, h3⟩
      by_cases h : x ≤ 5
      · exact Or.inl ⟨⟨h1, h⟩, h3⟩
      · exact Or.inr ⟨⟨⟨by omega, h2⟩, Or.inr (by omega)⟩, h3⟩
  · ext x
    simp [Sem.set_pts, Toy.sem, Toy.env, Toy.env0, Toy.tab, Toy.union, Toy.band, Toy.interval,
      Toy.disjoint_pieces, visit, isl_basic_map_partial_lexopt, Slot.store, Acc.read_all_empty]

/-- Witness of C2 on the scenario `R = {x -> y : 0 ≤ y ≤ 10}`,
`D = {x : 0 ≤ x ≤ 5} ∪ {x : 3 ≤ x ≤ 8}`, minimizing: the result maps each
input of `D` with an image to exactly one output, namely its optimum; it maps
every `x` with `0 ≤ x ≤ 8` to `y = 0`, and the infeasible region is empty. -/
theorem composed_optimum_exact_witness :
    Toy.sem.disjointifies Toy.env (Toy.region [Toy.interval 0 5, Toy.interval 3 8])
        { dim := Toy.sp, p := Toy.disjoint_pieces [] [Toy.interval 0 5, Toy.interval 3 8] } ∧
      (∃ r, (basic_map_partial_lexopt Toy.env (some (Toy.band none 0 10))
          (some (Toy.region [Toy.interval 0 5, Toy.interval 3 8])) (some none) 0).res = some r ∧
        (∀ x ∈ Toy.sem.set_pts (Toy.region [Toy.interval 0 5, Toy.interval 3 8]),
          (∃ y, (x, y) ∈ Toy.sem.rel (Toy.band none 0 10)) →
            ∃! y, (x, y) ∈ Toy.sem.graph r) ∧
        (∀ x y, (x, y) ∈ Toy.sem.graph r ↔
          x ∈ Toy.sem.set_pts (Toy.region [Toy.interval 0 5, Toy.interval 3 8]) ∧
            Toy.sem.is_lexopt (Toy.env.is_max 0) (Toy.band none 0 10) x y)) ∧
      ∃ r e, (basic_map_partial_lexopt Toy.env (some (Toy.band none 0 10))
          (some (Toy.region [Toy.interval 0 5, Toy.interval 3 8])) (some none) 0).res = some r ∧
        (basic_map_partial_lexopt Toy.env (some (Toy.band none 0 10))
          (some (Toy.region [Toy.interval 0 5, Toy.interval 3 8])) (some none) 0).empty
          = some (some e) ∧
        (∀ x y, (x, y) ∈ Toy.sem.graph r ↔ (0 ≤ x ∧ x ≤ 8 ∧ y = [0])) ∧
        Toy.sem.set_pts e = ∅ :=
  ⟨toy_disjointifies_two _ _,
    composed_optimum_exact Toy.sem Toy.env (Toy.band none 0 10)
      (Toy.region [Toy.interval 0 5, Toy.interval 3 8])
      { dim := Toy.sp, p := Toy.disjoint_pieces [] [Toy.interval 0 5, Toy.interval 3 8] }
      (some none) 0 (toy_disjointifies_two _ _) (fun a _ => toy_solver_exact _ a _ 0)
      toy_ADD_is_union (toy_EMPTY_is_empty _),
    toy_scenario_overlap⟩

/-- C3 (empty-domain boundary).  When the disjointified partition of the
domain has no pieces, `basic_map_partial_lexopt` returns `EMPTY` of the space
of the relation `R`, stores the (empty) disjointified domain in a requested
infeasible-region slot (and has no slot to store in otherwise), and makes no
call to the Atom Solver. -/
theorem empty_domain_boundary (E : Env Space BMap TYPE) (R : BMap)
    (D dj : isl_set Space BMap) (empty : Slot Space BMap) (flags : Nat)
    (hd : E.isl_set_make_disjoint (some D) = some dj) (hn : dj.n = 0) :
    (basic_map_partial_lexopt E (some R) (some D) empty flags).res =
        E.EMPTY (E.isl_basic_map_get_space (some R)) ∧
      (∀ c, empty = some c →
        (basic_map_partial_lexopt E (some R) (some D) empty flags).empty = some (some dj)) ∧
      (empty = none →
        (basic_map_partial_lexopt E (some R) (some D) empty flags).empty = none) ∧
      solver_calls (basic_map_partial_lexopt E (some R) (some D) empty flags).calls = 0 := by
  have hp : dj.p = [] := List.length_eq_zero.mp hn
  rw [engine_nil E (some R) (some D) dj empty flags hd hp]
  refine ⟨rfl, ?_, ?_, ?_⟩
  · intro c hc
    simp [hc, Slot.store]
  · intro hc
    simp [hc, Slot.store]
  · simp [solver_calls, Call.is_solver]

/-- Witness of C3: the relation `{x -> y : 0 ≤ y ≤ 10}` over a domain union
without pieces, with a slot. -/
theorem empty_domain_boundary_witness :
    (Toy.region []).n = 0 ∧
      (basic_map_partial_lexopt Toy.env (some (Toy.band none 0 10)) (some (Toy.region []))
          (some none) 0).res =
        Toy.env.EMPTY (Toy.env.isl_basic_map_get_space (some (Toy.band none 0 10))) ∧
      (∀ c, (some none : Slot Toy.Space0 Toy.Piece) = some c →
        (basic_map_partial_lexopt Toy.env (some (Toy.band none 0 10)) (some (Toy.region []))
          (some none) 0).empty = some (some (Toy.region []))) ∧
      ((some none : Slot Toy.Space0 Toy.Piece) = none →
        (basic_map_partial_lexopt Toy.env (some (Toy.band none 0 10)) (some (Toy.region []))
          (some none) 0).empty = none) ∧
      solver_calls (basic_map_partial_lexopt Toy.env (some (Toy.band none 0 10))
          (some (Toy.region [])) (some none) 0).calls = 0 :=
  ⟨rfl, empty_domain_boundary Toy.env (Toy.band none 0 10) (Toy.region []) (Toy.region [])
    (some none) 0 rfl rfl⟩

/-- C4 (parameter-mismatch rejection).  For a present relation and a present
domain whose parameter tuples do not match, `isl_map_partial_lexopt` raises
the invalid-argument error "unaligned unnamed parameters" exactly if one of
the two spaces lacks named parameters; in that case it returns no result,
stores the no-value marker in a requested slot, and makes no alignment call,
no call of the aligned computation, no disjointification and no Atom Solver
call. -/
theorem param_mismatch_rejection (E : Env Space BMap TYPE) (m : isl_map Space BMap)
    (d : isl_set Space BMap) (empty : Slot Space BMap) (flags : Nat)
    (hmis : E.isl_space_match m.dim isl_dim_type.isl_dim_param d.dim
      isl_dim_type.isl_dim_param = false) :
    (Call.die isl_error.isl_error_invalid "unaligned unnamed parameters" ∈
          (isl_map_partial_lexopt E (some m) (some d) empty flags).calls ↔
        (E.isl_space_has_named_params m.dim = false ∨
          E.isl_space_has_named_params d.dim = false)) ∧
      ((E.isl_space_has_named_params m.dim = false ∨
          E.isl_space_has_named_params d.dim = false) →
        (isl_map_partial_lexopt E (some m) (some d) empty flags).res = none ∧
        (isl_map_partial_lexopt E (some m) (some d) empty flags).empty = empty.store none ∧
        ∀ c ∈ (isl_map_partial_lexopt E (some m) (some d) empty flags).calls,
          c.is_align = false ∧ c.is_aligned = false ∧ c.is_disjoint = false ∧
            c.is_solver = false) := by
  cases hm : E.isl_space_has_named_params m.dim <;>
    cases hdn : E.isl_space_has_named_params d.dim <;>
    simp [isl_map_partial_lexopt, isl_map_partial_lexopt_aligned, hmis, hm, hdn,
      Call.is_align, Call.is_aligned, Call.is_disjoint, Call.is_solver]

/-- Witness of C4: a relation with one unnamed parameter and a domain with
two unnamed parameters. -/
theorem param_mismatch_rejection_witness :
    Toy.env.isl_space_match (Toy.with_params [none]).dim isl_dim_type.isl_dim_param
        (Toy.with_params [none, none]).dim isl_dim_type.isl_dim_param = false ∧
      Call.die isl_error.isl_error_invalid "unaligned unnamed parameters" ∈
        (isl_map_partial_lexopt Toy.env (some (Toy.with_params [none]))
          (some (Toy.with_params [none, none])) (some none) 0).calls ∧
      (isl_map_partial_lexopt Toy.env (some (Toy.with_params [none]))
          (some (Toy.with_params [none, none])) (some none) 0).res = none ∧
      (isl_map_partial_lexopt Toy.env (some (Toy.with_params [none]))
          (some (Toy.with_params [none, none])) (some none) 0).empty = some none :=
  have h := param_mismatch_rejection Toy.env (Toy.with_params [none])
    (Toy.with_params [none, none]) (some none) 0 (by decide)
  ⟨by decide, h.1.mpr (Or.inl (by decide)), (h.2 (Or.inl (by decide))).1,
    (h.2 (Or.inl (by decide))).2.1⟩

theorem merge_params_absorb {P : Type} [DecidableEq P] (model ps : List P)
    (h : ∀ q ∈ ps, q ∈ model) : merge_params model ps = model := by
  have hf : ps.filter (fun q => decide (q ∉ model)) = [] := by
    rw [List.filter_eq_nil_iff]
    intro q hq
    simp [h q hq]
  rw [merge_params, hf, List.append_nil]

theorem mem_merge_params {P : Type} [DecidableEq P] (model ps : List P) (q : P) :
    q ∈ merge_params model ps ↔ q ∈ ps ∨ q ∈ model := by
  simp only [merge_params, List.mem_append, List.mem_filter, decide_eq_true_eq]
  tauto

/-- C5 (alignment produces one common parameter space), with
`isl_map_align_params` as the spec describes it.  When the parameter tuples
of relation and domain do not match and both are fully named,
`isl_map_partial_lexopt` aligns the relation to the space of the domain and
then the domain to the space of the aligned relation, hands exactly these two
values (with the slot and flags unchanged) to the aligned computation, and
the two have the same parameter tuple, which consists of exactly the
parameters of the original relation and domain.  When the parameter tuples
match, the relation, domain, slot and flags are handed on unchanged. -/
theorem alignment_common_space {P : Type} [DecidableEq P] (E : Env Space BMap TYPE)
    (params : Space → List P) (m : isl_map Space BMap) (d : isl_set Space BMap)
    (empty : Slot Space BMap) (flags : Nat) (hc : aligns_params E params) :
    (E.isl_space_match m.dim isl_dim_type.isl_dim_param d.dim
          isl_dim_type.isl_dim_param = false →
        E.isl_space_has_named_params m.dim = true →
        E.isl_space_has_named_params d.dim = true →
        ∃ m1 d1, E.isl_map_align_params (some m) (some d.dim) = some m1 ∧
          E.isl_map_align_params (some d) (some m1.dim) = some d1 ∧
          (isl_map_partial_lexopt E (some m) (some d) empty flags).calls.filter
              Call.is_aligned =
            [Call.map_partial_lexopt_aligned (some m1) (some d1) empty.isSome flags] ∧
          (isl_map_partial_lexopt E (some m) (some d) empty flags).res =
            (isl_map_partial_lexopt_aligned E (some m1) (some d1) empty flags).res ∧
          (isl_map_partial_lexopt E (some m) (some d) empty flags).empty =
            (isl_map_partial_lexopt_aligned E (some m1) (some d1) empty flags).empty ∧
          params m1.dim = params d1.dim ∧
          ∀ q, q ∈ params m1.dim ↔ q ∈ params m.dim ∨ q ∈ params d.dim) ∧
      (E.isl_space_match m.dim isl_dim_type.isl_dim_param d.dim
          isl_dim_type.isl_dim_param = true →
        (isl_map_partial_lexopt E (some m) (some d) empty flags).calls.filter
            Call.is_aligned =
          [Call.map_partial_lexopt_aligned (some m) (some d) empty.isSome flags] ∧
        (isl_map_partial_lexopt E (some m) (some d) empty flags).res =
          (isl_map_partial_lexopt_aligned E (some m) (some d) empty flags).res ∧
        (isl_map_partial_lexopt E (some m) (some d) empty flags).empty =
          (isl_map_partial_lexopt_aligned E (some m) (some d) empty flags).empty) := by
  constructor
  · intro hmis hm hdn
    obtain ⟨m1, hm1, hp1⟩ := hc.2 m d.dim
    obtain ⟨d1, hd1, hp2⟩ := hc.2 d m1.dim
    have hsub : ∀ q ∈ params d.dim, q ∈ params m1.dim := by
      intro q hq
      rw [hp1, mem_merge_params]
      exact Or.inr hq
    refine ⟨m1, d1, hm1, hd1, ?_, ?_, ?_, ?_, ?_⟩
    · simp [isl_map_partial_lexopt, isl_map_partial_lexopt_aligned, hmis, hm, hdn, hc.1,
        hm1, hd1, Call.is_aligned, List.filter]
    · simp [isl_map_partial_lexopt, hmis, hm, hdn, hc.1, hm1, hd1]
    · simp [isl_map_partial_lexopt, hmis, hm, hdn, hc.1, hm1, hd1]
    · rw [hp2, merge_params_absorb _ _ hsub]
    · intro q
      rw [hp1, mem_merge_params]
  · intro hmat
    simp [isl_map_partial_lexopt, isl_map_partial_lexopt_aligned, hmat, Call.is_aligned,
      List.filter]

theorem toy_aligns_params : aligns_params Toy.env (fun s : Toy.Space0 => s.params) := by
  constructor
  · intro m
    rfl
  · intro m model
    exact ⟨_, rfl, rfl⟩

/-- Witness of C5: a relation with the parameter `n` and a domain with the
parameters `m`, `n`; both are handed on with the parameter tuple `m`, `n`. -/
theorem alignment_common_space_witness :
    aligns_params Toy.env (fun s : Toy.Space0 => s.params) ∧
      ∃ m1 d1,
        (isl_map_partial_lexopt Toy.env (some (Toy.with_params [some "n"]))
            (some (Toy.with_params [some "m", some "n"])) (some none) 0).calls.filter
            Call.is_aligned =
          [Call.map_partial_lexopt_aligned (some m1) (some d1) true 0] ∧
        m1.dim.params = d1.dim.params ∧
        m1.dim.params = [some "m", some "n"] :=
  have h := (alignment_common_space Toy.env (fun s : Toy.Space0 => s.params)
    (Toy.with_params [some "n"]) (Toy.with_params [some "m", some "n"]) (some none) 0
    toy_aligns_params).1 (by decide) (by decide) (by decide)
  ⟨toy_aligns_params,
    match h with
    | ⟨m1, d1, hm1, _, hcalls, _, _, hpar, _⟩ =>
      ⟨m1, d1, hcalls, hpar, by
        have h2 : Toy.env.isl_map_align_params (some (Toy.with_params [some "n"]))
            (some (Toy.with_params [some "m", some "n"]).dim) =
            some { dim := { params := [some "m", some "n"], n_in := 1, n_out := 1 },
                   p := [] } := rfl
        rw [h2] at hm1
        cases hm1
        rfl⟩⟩

theorem toy_solver_exact_empty (R a : Toy.Piece) (flags : Nat) :
    Toy.sem.solver_exact_empty Toy.env R a flags := by
  refine ⟨_, rfl, ?_⟩
  ext x
  simp only [Sem.set_pts, Toy.sem, Set.mem_setOf_eq, List.mem_singleton, exists_eq_left,
    Bool.and_eq_true, Bool.not_eq_true', Bool.and_eq_false_imp, decide_eq_false_iff_not]
  constructor
  · rintro ⟨h1, h2⟩
    refine ⟨h1, ?_⟩
    rintro ⟨y, h3, v, _, h4, h5⟩
    exact h2 h3 (le_trans h4 h5)
  · rintro ⟨h1, h2⟩
    refine ⟨h1, fun h3 h4 => h2 ⟨[R.lo], h3, R.lo, rfl, le_refl _, h4⟩⟩

theorem toy_extracts_intrinsic_domain (R : Toy.Piece) :
    Toy.sem.extracts_intrinsic_domain Toy.env R
      { R with inp := fun x => R.inp x && decide (R.lo ≤ R.hi) } := by
  refine ⟨rfl, ?_⟩
  ext x
  simp only [Toy.sem, Set.mem_setOf_eq, Bool.and_eq_true, decide_eq_true_eq]
  constructor
  · rintro ⟨h1, h2⟩
    exact ⟨[R.lo], h1, R.lo, rfl, le_refl _, h2⟩
  · rintro ⟨y, h1, v, _, h2, h3⟩
    exact ⟨h1, le_trans h2 h3⟩

/-- C6 (idempotence of totality at the convex level), with `extract_domain`
as the spec describes it.  `isl_basic_map_lexopt` on `R` returns exactly the
result of `isl_basic_map_partial_lexopt` on `R` and the intrinsic domain of
`R`, called as the code calls it, without a slot.  Given an exact Atom Solver,
the same call with a slot returns a result with the same graph (the identical
result when the solver's result does not depend on the slot) and an
infeasible region without points. -/
theorem totality_idempotent (S : Sem BMap TYPE X Tuple) (E : Env Space BMap TYPE)
    (R dom0 : BMap) (c : Option (isl_set Space BMap)) (flags : Nat)
    (hdom : S.extracts_intrinsic_domain E R dom0)
    (hex : ∀ b, S.solver_exact E R dom0 b flags)
    (hem : S.solver_exact_empty E R dom0 flags) :
    (isl_basic_map_lexopt E (some R) flags).res =
        (isl_basic_map_partial_lexopt E (some R) (some dom0) none flags).res ∧
      ((E.isl_tab_basic_map_partial_lexopt (some R) (some dom0) false flags).1 =
          (E.isl_tab_basic_map_partial_lexopt (some R) (some dom0) true flags).1 →
        (isl_basic_map_lexopt E (some R) flags).res =
          (isl_basic_map_partial_lexopt E (some R) (some dom0) (some c) flags).res) ∧
      ∃ r r1 e, (isl_basic_map_lexopt E (some R) flags).res = some r ∧
        (isl_basic_map_partial_lexopt E (some R) (some dom0) (some c) flags).res = some r1 ∧
        S.graph r = S.graph r1 ∧
        (isl_basic_map_partial_lexopt E (some R) (some dom0) (some c) flags).empty =
          some (some e) ∧
        S.set_pts e = ∅ := by
  obtain ⟨hd, hint⟩ := hdom
  obtain ⟨r, hr, hexr⟩ := hex false
  obtain ⟨r1, hr1, hexr1⟩ := hex true
  obtain ⟨e, he, hpe⟩ := hem
  refine ⟨?_, ?_, r, r1, e, ?_, ?_, ?_, ?_, ?_⟩
  · simp [isl_basic_map_lexopt, hd]
  · intro h
    simp [isl_basic_map_lexopt, isl_basic_map_partial_lexopt, hd, h]
  · simp [isl_basic_map_lexopt, isl_basic_map_partial_lexopt, hd, hr]
  · simp [isl_basic_map_partial_lexopt, hr1]
  · ext ⟨x, y⟩
    rw [hexr.1 x y, hexr1.1 x y]
  · simp [isl_basic_map_partial_lexopt, Slot.store, he]
  · rw [hpe, hint]
    ext x
    simp

/-- Witness of C6: the relation `{x -> y : x ≤ 10, 0 ≤ y ≤ 10}`. -/
theorem totality_idempotent_witness :
    Toy.sem.extracts_intrinsic_domain Toy.env (Toy.band (some 10) 0 10)
        { Toy.band (some 10) 0 10 with
          inp := fun x => (Toy.band (some 10) 0 10).inp x &&
            decide ((Toy.band (some 10) 0 10).lo ≤ (Toy.band (some 10) 0 10).hi) } ∧
      (isl_basic_map_lexopt Toy.env (some (Toy.band (some 10) 0 10)) 0).res =
        (isl_basic_map_partial_lexopt Toy.env (some (Toy.band (some 10) 0 10))
          (Toy.env.extract_domain (some (Toy.band (some 10) 0 10))) none 0).res ∧
      ∃ e, (isl_basic_map_partial_lexopt Toy.env (some (Toy.band (some 10) 0 10))
          (Toy.env.extract_domain (some (Toy.band (some 10) 0 10))) (some none) 0).empty =
            some (some e) ∧
        Toy.sem.set_pts e = ∅ :=
  have h := totality_idempotent Toy.sem Toy.env (Toy.band (some 10) 0 10) _ none 0
    (toy_extracts_intrinsic_domain _) (fun b => toy_solver_exact _ _ b 0)
    (toy_solver_exact_empty _ _ 0)
  ⟨toy_extracts_intrinsic_domain _, h.1,
    match h.2.2 with
    | ⟨_, _, e, _, _, _, he, hpe⟩ => ⟨e, he, hpe⟩⟩

/-- Counterexample to C7 as stated: with an absent relation and a present
domain union of one piece, the Atom Solver is invoked (once), so the call
does not abort before reaching it; and with an absent relation and a domain
union without pieces, a requested slot receives that domain, not the
no-value marker. -/
theorem absent_relation_reaches_solver :
    ¬ ((basic_map_partial_lexopt Toy.env none (some (Toy.region [Toy.interval 0 1]))
            (some none) 0).res = none ∧
        solver_calls (basic_map_partial_lexopt Toy.env none
            (some (Toy.region [Toy.interval 0 1])) (some none) 0).calls = 0 ∧
        (basic_map_partial_lexopt Toy.env none (some (Toy.region [Toy.interval 0 1]))
            (some none) 0).empty = some none) ∧
      solver_calls (basic_map_partial_lexopt Toy.env none
          (some (Toy.region [Toy.interval 0 1])) (some none) 0).calls = 1 ∧
      (basic_map_partial_lexopt Toy.env none (some (Toy.region [])) (some none) 0).empty =
        some (some (Toy.region [])) := by
  have h1 : solver_calls (basic_map_partial_lexopt Toy.env none
      (some (Toy.region [Toy.interval 0 1])) (some none) 0).calls = 1 := rfl
  refine ⟨?_, h1, rfl⟩
  rintro ⟨_, h, _⟩
  rw [h1] at h
  exact absurd h (by decide)

/-- C7, amended (failure on an absent domain or failed disjointification).
When the domain union is absent (disjointification returning no value on an
absent union) or disjointification reports failure, `basic_map_partial_lexopt`
returns no result, makes no call to the Atom Solver and stores the no-value
marker in a requested slot, whether the relation is present or not. -/
theorem disjointification_failure_aborts (E : Env Space BMap TYPE) (bmap : Option BMap)
    (dom : Option (isl_set Space BMap)) (empty : Slot Space BMap) (flags : Nat)
    (hnull : E.isl_set_make_disjoint none = none)
    (h : dom = none ∨ E.isl_set_make_disjoint dom = none) :
    (basic_map_partial_lexopt E bmap dom empty flags).res = none ∧
      solver_calls (basic_map_partial_lexopt E bmap dom empty flags).calls = 0 ∧
      (∀ c, empty = some c →
        (basic_map_partial_lexopt E bmap dom empty flags).empty = some none) ∧
      (empty = none → (basic_map_partial_lexopt E bmap dom empty flags).empty = none) := by
  have hd : E.isl_set_make_disjoint dom = none := by
    rcases h with h | h
    · rw [h, hnull]
    · exact h
  refine ⟨?_, ?_, ?_, ?_⟩
  · simp [basic_map_partial_lexopt, hd]
  · simp [basic_map_partial_lexopt, hd, solver_calls, Call.is_solver]
  · intro c hc
    simp [basic_map_partial_lexopt, hd, hc, Slot.store]
  · intro hc
    simp [basic_map_partial_lexopt, hd, hc, Slot.store]

/-- Witness of the amended C7: an absent domain union, a present relation and
a slot. -/
theorem disjointification_failure_aborts_witness :
    Toy.env.isl_set_make_disjoint none = none ∧
      (basic_map_partial_lexopt Toy.env (some (Toy.band none 0 10)) none (some none) 0).res
        = none ∧
      solver_calls (basic_map_partial_lexopt Toy.env (some (Toy.band none 0 10)) none
        (some none) 0).calls = 0 ∧
      (basic_map_partial_lexopt Toy.env (some (Toy.band none 0 10)) none (some none) 0).empty
        = some none :=
  have h := disjointification_failure_aborts Toy.env (some (Toy.band none 0 10)) none
    (some none) 0 rfl (Or.inl rfl)
  ⟨rfl, h.1, h.2.1, h.2.2.1 none rfl⟩

/-! ## The infeasible-region component of the loop -/

theorem fold_visit_isSome (E : Env Space BMap TYPE) (bmap : Option BMap) (flags : Nat)
    (atoms : List (Option BMap)) :
    ∀ st : Acc Space BMap TYPE,
      (atoms.foldl (visit E bmap flags) st).empty.isSome = st.empty.isSome := by
  induction atoms with
  | nil => intro st; rfl
  | cons a atoms ih =>
    intro st
    rw [List.foldl_cons, ih, (visit_res E bmap a flags st).2]

theorem fold_visit_empty (E : Env Space BMap TYPE) (bmap : Option BMap) (flags : Nat)
    (atoms : List (Option BMap)) :
    ∀ (st : Acc Space BMap TYPE) (c v : Option (isl_set Space BMap)),
      st.empty = some c → st.all_empty = some v →
      (atoms.foldl (visit E bmap flags) st).all_empty =
        some (fold_empty E bmap flags v atoms) := by
  induction atoms with
  | nil =>
    intro st c v _ hv
    simpa [fold_empty] using hv
  | cons a atoms ih =>
    intro st c v hc hv
    obtain ⟨_, h2, h3⟩ := visit_slot E bmap a flags st c hc
    have hread : st.read_all_empty = v := by simp [Acc.read_all_empty, hv]
    rw [hread] at h3
    rw [List.foldl_cons, ih _ _ _ h2 h3]
    rfl

theorem engine_empty (E : Env Space BMap TYPE) (bmap : Option BMap)
    (dom : Option (isl_set Space BMap)) (dj : isl_set Space BMap)
    (c : Option (isl_set Space BMap)) (flags : Nat) (a0 : BMap) (rest : List BMap)
    (hd : E.isl_set_make_disjoint dom = some dj) (hp : dj.p = a0 :: rest) :
    (basic_map_partial_lexopt E bmap dom (some c) flags).empty =
      some (fold_empty E bmap flags
        (E.isl_tab_basic_map_partial_lexopt bmap (some a0) true flags).2 (rest.map some)) := by
  rw [engine_cons E bmap dom dj (some c) flags a0 rest hd hp]
  have h1 : (first E bmap dom (some a0) (some c) flags).empty =
      some (E.isl_tab_basic_map_partial_lexopt bmap (some a0) true flags).2 := by
    simp [first, isl_basic_map_partial_lexopt, Slot.store]
  have h2 : (first E bmap dom (some a0) (some c) flags).all_empty =
      some (E.isl_tab_basic_map_partial_lexopt bmap (some a0) true flags).2 := by
    simp [first, isl_basic_map_partial_lexopt, Slot.store]
  have h3 := fold_visit_empty E bmap flags (rest.map some) _ _ _ h1 h2
  have h4 := fold_visit_isSome E bmap flags (rest.map some)
    (first E bmap dom (some a0) (some c) flags)
  rw [h1] at h4
  simp only [finish, Acc.read_all_empty, h3]
  cases h5 : ((rest.map some).foldl (visit E bmap flags)
      (first E bmap dom (some a0) (some c) flags)).empty with
  | none => simp [h5] at h4
  | some w => simp [Slot.store]

theorem engine_empty_none (E : Env Space BMap TYPE) (bmap : Option BMap)
    (dom : Option (isl_set Space BMap)) (flags : Nat) :
    (basic_map_partial_lexopt E bmap dom none flags).empty = none := by
  cases hd : E.isl_set_make_disjoint dom with
  | none => simp [basic_map_partial_lexopt, hd, Slot.store]
  | some dj =>
    cases hp : dj.p with
    | nil => simp [engine_nil E bmap dom dj none flags hd hp, Slot.store]
    | cons a0 rest =>
      rw [engine_cons E bmap dom dj none flags a0 rest hd hp]
      have h4 := fold_visit_isSome E bmap flags (rest.map some)
        (first E bmap dom (some a0) none flags)
      have h5 : (first E bmap dom (some a0) none flags).empty = none := by
        simp [first, isl_basic_map_partial_lexopt, Slot.store]
      rw [h5] at h4
      cases h6 : ((rest.map some).foldl (visit E bmap flags)
          (first E bmap dom (some a0) none flags)).empty with
      | none => simp [finish, h6, Slot.store]
      | some w => simp [h6] at h4

theorem foldl_none_of_fail {α β : Type} (op : Option α → Option α → Option α)
    (g : β → Option α) (hop : ∀ x, op none x = none ∧ op x none = none) (l : List β) :
    ∀ acc : Option α, (acc = none ∨ ∃ x ∈ l, g x = none) →
      l.foldl (fun acc x => op acc (g x)) acc = none := by
  induction l with
  | nil =>
    intro acc h
    rcases h with h | ⟨x, hx, _⟩
    · exact h
    · cases hx
  | cons y l ih =>
    intro acc h
    rw [List.foldl_cons]
    apply ih
    rcases h with h | ⟨x, hx, hg⟩
    · left
      rw [h, (hop _).1]
    · rcases List.mem_cons.mp hx with hx | hx
      · left
        rw [← hx, hg, (hop _).2]
      · exact Or.inr ⟨x, hx, hg⟩

/-- C8 (propagation of Atom Solver failure).  Let the disjointified partition
have an atom `a_k` (at any index `k`) on which the Atom Solver reports failure:
no result and no infeasible region.  If `ADD` and `isl_set_union_disjoint`
return no value when an operand is absent, then, whatever the solver returns
on the other atoms, `basic_map_partial_lexopt` returns no result, and a
requested slot holds the no-value marker. -/
theorem solver_failure_propagates (E : Env Space BMap TYPE) (R : BMap)
    (D dj : isl_set Space BMap) (empty : Slot Space BMap) (flags : Nat) (k : Nat) (a_k : BMap)
    (hd : E.isl_set_make_disjoint (some D) = some dj) (hk : dj.p[k]? = some a_k)
    (hfail : E.isl_tab_basic_map_partial_lexopt (some R) (some a_k) empty.isSome flags =
      (none, none))
    (hADD : ∀ x, E.ADD none x = none ∧ E.ADD x none = none)
    (hUn : ∀ x, E.isl_set_union_disjoint none x = none ∧
      E.isl_set_union_disjoint x none = none) :
    (basic_map_partial_lexopt E (some R) (some D) empty flags).res = none ∧
      (∀ c, empty = some c →
        (basic_map_partial_lexopt E (some R) (some D) empty flags).empty = some none) ∧
      (empty = none →
        (basic_map_partial_lexopt E (some R) (some D) empty flags).empty = none) := by
  have hmem : a_k ∈ dj.p := List.getElem?_mem hk
  cases hp : dj.p with
  | nil => simp [hp] at hmem
  | cons a0 rest =>
    rw [hp] at hmem
    have hcase : (E.isl_tab_basic_map_partial_lexopt (some R) (some a0) empty.isSome flags
          = (none, none)) ∨
        ∃ x ∈ rest.map some,
          E.isl_tab_basic_map_partial_lexopt (some R) x empty.isSome flags = (none, none) := by
      rcases List.mem_cons.mp hmem with h | h
      · left
        rw [← h, hfail]
      · right
        exact ⟨some a_k, List.mem_map.mpr ⟨a_k, h, rfl⟩, hfail⟩
    refine ⟨?_, ?_, ?_⟩
    · rw [engine_res E (some R) (some D) dj empty flags a0 rest hd hp]
      apply foldl_none_of_fail E.ADD
        (fun a => (E.isl_tab_basic_map_partial_lexopt (some R) a empty.isSome flags).1) hADD
      rcases hcase with h | ⟨x, hx, h⟩
      · left
        rw [h]
      · right
        exact ⟨x, hx, by rw [h]⟩
    · intro c hc
      subst hc
      rw [engine_empty E (some R) (some D) dj c flags a0 rest hd hp]
      congr 1
      apply foldl_none_of_fail E.isl_set_union_disjoint
        (fun a => (E.isl_tab_basic_map_partial_lexopt (some R) a true flags).2) hUn
      rcases hcase with h | ⟨x, hx, h⟩
      · left
        exact congrArg Prod.snd h
      · right
        exact ⟨x, hx, congrArg Prod.snd h⟩
    · intro hc
      subst hc
      exact engine_empty_none E (some R) (some D) flags

theorem toy_union_absorbs (x : Option (isl_map Toy.Space0 Toy.Piece)) :
    Toy.union none x = none ∧ Toy.union x none = none := by
  cases x <;> simp [Toy.union]

/-- Witness of C8: the domain `{x : 0 ≤ x ≤ 5}` united with a piece over a
space with a parameter, on which the limited Atom Solver reports failure
(index `k = 1`). -/
theorem solver_failure_propagates_witness :
    (∃ dj a_k, Toy.env_limited.isl_set_make_disjoint
          (some (Toy.region [Toy.interval 0 5, Toy.interval_n 7 9])) = some dj ∧
        dj.p[1]? = some a_k ∧
        Toy.env_limited.isl_tab_basic_map_partial_lexopt (some (Toy.band none 0 10))
          (some a_k) true 0 = (none, none)) ∧
      (basic_map_partial_lexopt Toy.env_limited (some (Toy.band none 0 10))
          (some (Toy.region [Toy.interval 0 5, Toy.interval_n 7 9])) (some none) 0).res
        = none ∧
      (basic_map_partial_lexopt Toy.env_limited (some (Toy.band none 0 10))
          (some (Toy.region [Toy.interval 0 5, Toy.interval_n 7 9])) (some none) 0).empty
        = some none :=
  have h := solver_failure_propagates Toy.env_limited (Toy.band none 0 10)
    (Toy.region [Toy.interval 0 5, Toy.interval_n 7 9])
    { dim := Toy.sp, p := Toy.disjoint_pieces [] [Toy.interval 0 5, Toy.interval_n 7 9] }
    (some none) 0 1 _ rfl rfl rfl toy_union_absorbs toy_union_absorbs
  ⟨⟨_, _, rfl, rfl, rfl⟩, h.1, h.2.1 none rfl⟩

/-! ## Two instantiations of the template -/

theorem fold_res_map {A B : Type} (EA : Env Space BMap A) (EB : Env Space BMap B) (h : A → B)
    (hADD : ∀ a b : Option A, (EA.ADD a b).map h = EB.ADD (a.map h) (b.map h))
    (hsol : ∀ bmap dom b flags, EB.isl_tab_basic_map_partial_lexopt bmap dom b flags =
      ((EA.isl_tab_basic_map_partial_lexopt bmap dom b flags).1.map h,
        (EA.isl_tab_basic_map_partial_lexopt bmap dom b flags).2))
    (bmap : Option BMap) (b : Bool) (flags : Nat) (atoms : List (Option BMap)) :
    ∀ acc : Option A, fold_res EB bmap b flags (acc.map h) atoms =
      (fold_res EA bmap b flags acc atoms).map h := by
  induction atoms with
  | nil => intro acc; rfl
  | cons a atoms ih =>
    intro acc
    simp only [fold_res, List.foldl_cons] at ih ⊢
    rw [hsol, ← hADD, ih]

theorem fold_empty_congr {A B : Type} (EA : Env Space BMap A) (EB : Env Space BMap B)
    (h : A → B) (hun : EB.isl_set_union_disjoint = EA.isl_set_union_disjoint)
    (hsol : ∀ bmap dom b flags, EB.isl_tab_basic_map_partial_lexopt bmap dom b flags =
      ((EA.isl_tab_basic_map_partial_lexopt bmap dom b flags).1.map h,
        (EA.isl_tab_basic_map_partial_lexopt bmap dom b flags).2))
    (bmap : Option BMap) (flags : Nat) (atoms : List (Option BMap)) :
    ∀ acc : Option (isl_set Space BMap), fold_empty EB bmap flags acc atoms =
      fold_empty EA bmap flags acc atoms := by
  intro acc
  have hf : (fun (acc : Option (isl_set Space BMap)) (a : Option BMap) =>
        EB.isl_set_union_disjoint acc (EB.isl_tab_basic_map_partial_lexopt bmap a true flags).2) =
      fun acc a =>
        EA.isl_set_union_disjoint acc
          (EA.isl_tab_basic_map_partial_lexopt bmap a true flags).2 := by
    funext acc a
    rw [hsol, hun]
  simp only [fold_empty, hf]

/-- C9 (representation-independence of the generic engine).  Let two
instantiations `EA` and `EB` of the template share disjointification,
region-union and the space accessor, and let `h` map `EA`-results to
`EB`-results (and `NULL` to `NULL`) such that `h` commutes with `ADD` and
`EMPTY` and the Atom Solver of `EB` returns `(h r, e)` where that of `EA`
returns `(r, e)`.  Then for every relation, domain union, slot and flags the
result of `basic_map_partial_lexopt` under `EB` is `h` of the result under
`EA`, and the two leave the same infeasible region in the slot. -/
theorem representation_independent {A B : Type} (EA : Env Space BMap A)
    (EB : Env Space BMap B) (h : A → B)
    (hdis : EB.isl_set_make_disjoint = EA.isl_set_make_disjoint)
    (hun : EB.isl_set_union_disjoint = EA.isl_set_union_disjoint)
    (hsp : EB.isl_basic_map_get_space = EA.isl_basic_map_get_space)
    (hADD : ∀ a b : Option A, (EA.ADD a b).map h = EB.ADD (a.map h) (b.map h))
    (hEMPTY : ∀ s, (EA.EMPTY s).map h = EB.EMPTY s)
    (hsol : ∀ bmap dom b flags, EB.isl_tab_basic_map_partial_lexopt bmap dom b flags =
      ((EA.isl_tab_basic_map_partial_lexopt bmap dom b flags).1.map h,
        (EA.isl_tab_basic_map_partial_lexopt bmap dom b flags).2))
    (bmap : Option BMap) (dom : Option (isl_set Space BMap)) (empty : Slot Space BMap)
    (flags : Nat) :
    (basic_map_partial_lexopt EB bmap dom empty flags).res =
        (basic_map_partial_lexopt EA bmap dom empty flags).res.map h ∧
      (basic_map_partial_lexopt EB bmap dom empty flags).empty =
        (basic_map_partial_lexopt EA bmap dom empty flags).empty := by
  cases hd : EA.isl_set_make_disjoint dom with
  | none =>
    have hdB : EB.isl_set_make_disjoint dom = none := by rw [hdis, hd]
    simp [basic_map_partial_lexopt, hd, hdB]
  | some dj =>
    have hdB : EB.isl_set_make_disjoint dom = some dj := by rw [hdis, hd]
    cases hp : dj.p with
    | nil =>
      rw [engine_nil EA bmap dom dj empty flags hd hp,
        engine_nil EB bmap dom dj empty flags hdB hp]
      simp [hsp, hEMPTY]
    | cons a0 rest =>
      constructor
      · rw [engine_res EA bmap dom dj empty flags a0 rest hd hp,
          engine_res EB bmap dom dj empty flags a0 rest hdB hp, hsol]
        exact fold_res_map EA EB h hADD hsol bmap empty.isSome flags _ _
      · cases empty with
        | none => rw [engine_empty_none, engine_empty_none]
        | some c =>
          rw [engine_empty EA bmap dom dj c flags a0 rest hd hp,
            engine_empty EB bmap dom dj c flags a0 rest hdB hp, hsol,
            fold_empty_congr EA EB h hun hsol]

theorem toy_pw_add (a b : Option (isl_map Toy.Space0 Toy.Piece)) :
    (Toy.env.ADD a b).map Toy.to_pw = Toy.env_pw.ADD (a.map Toy.to_pw) (b.map Toy.to_pw) := by
  cases a <;> cases b <;> simp [Toy.env, Toy.env0, Toy.env_pw, Toy.union, Toy.pw_add, Toy.to_pw]

theorem toy_pw_empty (s : Option Toy.Space0) :
    (Toy.env.EMPTY s).map Toy.to_pw = Toy.env_pw.EMPTY s := by
  cases s <;> simp [Toy.env, Toy.env0, Toy.env_pw, Toy.map_empty, Toy.pw_empty, Toy.to_pw]

/-- Witness of C9: the relational and the functional instantiation on the
relation `{x -> y : 0 ≤ y ≤ 10}` and the domain
`{x : 0 ≤ x ≤ 5} ∪ {x : 3 ≤ x ≤ 8}`. -/
theorem representation_independent_witness :
    (∀ a b : Option (isl_map Toy.Space0 Toy.Piece),
        (Toy.env.ADD a b).map Toy.to_pw =
          Toy.env_pw.ADD (a.map Toy.to_pw) (b.map Toy.to_pw)) ∧
      (∀ s, (Toy.env.EMPTY s).map Toy.to_pw = Toy.env_pw.EMPTY s) ∧
      (basic_map_partial_lexopt Toy.env_pw (some (Toy.band none 0 10))
          (some (Toy.region [Toy.interval 0 5, Toy.interval 3 8])) (some none) 0).res =
        (basic_map_partial_lexopt Toy.env (some (Toy.band none 0 10))
          (some (Toy.region [Toy.interval 0 5, Toy.interval 3 8])) (some none) 0).res.map
            Toy.to_pw ∧
      (basic_map_partial_lexopt Toy.env_pw (some (Toy.band none 0 10))
          (some (Toy.region [Toy.interval 0 5, Toy.interval 3 8])) (some none) 0).empty =
        (basic_map_partial_lexopt Toy.env (some (Toy.band none 0 10))
          (some (Toy.region [Toy.interval 0 5, Toy.interval 3 8])) (some none) 0).empty :=
  ⟨toy_pw_add, toy_pw_empty,
    representation_independent Toy.env Toy.env_pw Toy.to_pw rfl rfl rfl toy_pw_add
      toy_pw_empty (fun _ _ _ _ => rfl) (some (Toy.band none 0 10))
      (some (Toy.region [Toy.interval 0 5, Toy.interval 3 8])) (some none) 0⟩

/-- C10 (named entry points are flag-fixed specializations and aliases).
Each lexmin entry point is the corresponding lexopt with flags `0`, each
lexmax entry point is it with flags `ISL_OPT_MAX`, and each set-named entry
point is the relation-named entry point of the same mode on the same
arguments. -/
theorem entry_points_specialize (E : Env Space BMap TYPE) (map : Option (isl_map Space BMap))
    (bmap dom : Option BMap) (empty : Slot Space BMap) :
    isl_map_lexmin E map = isl_map_lexopt E map 0 ∧
      isl_basic_map_lexmin E bmap = isl_basic_map_lexopt E bmap 0 ∧
      isl_basic_map_partial_lexmin E bmap dom empty =
        isl_basic_map_partial_lexopt E bmap dom empty 0 ∧
      isl_map_lexmax E map = isl_map_lexopt E map E.ISL_OPT_MAX ∧
      isl_basic_map_partial_lexmax E bmap dom empty =
        isl_basic_map_partial_lexopt E bmap dom empty E.ISL_OPT_MAX ∧
      isl_set_lexmin E map = isl_map_lexmin E map ∧
      isl_set_lexmax E map = isl_map_lexmax E map ∧
      isl_basic_set_partial_lexmin E bmap dom empty =
        isl_basic_map_partial_lexmin E bmap dom empty ∧
      isl_basic_set_partial_lexmax E bmap dom empty =
        isl_basic_map_partial_lexmax E bmap dom empty :=
  ⟨rfl, rfl, rfl, rfl, rfl, rfl, rfl, rfl, rfl⟩

/-! ## The union-level entry points on absent arguments -/

/-- C11 (null-argument handling at the union-level entry points).  When the
relation or the domain is absent, `isl_map_partial_lexopt` returns no result,
stores the no-value marker in a requested slot and calls no outside function
at all, so it compares no parameters, aligns nothing and decomposes nothing;
and `isl_map_lexopt` on an absent relation returns no result and calls no
outside function, so it builds no domain and does not run the partial
computation. -/
theorem null_arguments_rejected (E : Env Space BMap TYPE)
    (map : Option (isl_map Space BMap)) (dom : Option (isl_set Space BMap))
    (empty : Slot Space BMap) (flags : Nat) (h : map = none ∨ dom = none) :
    (isl_map_partial_lexopt E map dom empty flags).res = none ∧
      (∀ c, empty = some c →
        (isl_map_partial_lexopt E map dom empty flags).empty = some none) ∧
      (empty = none → (isl_map_partial_lexopt E map dom empty flags).empty = none) ∧
      (isl_map_partial_lexopt E map dom empty flags).calls = [] ∧
      (∀ c ∈ (isl_map_partial_lexopt E map dom empty flags).calls,
        c.is_param_check = false ∧ c.is_align = false ∧ c.is_aligned = false ∧
          c.is_disjoint = false ∧ c.is_solver = false) ∧
      (isl_map_lexopt E none flags).res = none ∧
      (isl_map_lexopt E none flags).calls = [] := by
  have hout : isl_map_partial_lexopt E map dom empty flags =
      { res := none, empty := empty.store none, calls := [] } := by
    rcases h with h | h
    · subst h
      rfl
    · subst h
      cases map <;> rfl
  rw [hout]
  refine ⟨rfl, ?_, ?_, rfl, ?_, rfl, rfl⟩
  · intro c hc
    simp [hc, Slot.store]
  · intro hc
    simp [hc, Slot.store]
  · intro c hc
    cases hc

/-- Witness of C11: a present relation, an absent domain and a slot. -/
theorem null_arguments_rejected_witness :
    (isl_map_partial_lexopt Toy.env (some (Toy.region [Toy.band none 0 10])) none
        (some none) 0).res = none ∧
      (isl_map_partial_lexopt Toy.env (some (Toy.region [Toy.band none 0 10])) none
        (some none) 0).empty = some none ∧
      (isl_map_partial_lexopt Toy.env (some (Toy.region [Toy.band none 0 10])) none
        (some none) 0).calls = [] :=
  have h := null_arguments_rejected Toy.env (some (Toy.region [Toy.band none 0 10])) none
    (some none) 0 (Or.inr rfl)
  ⟨h.1, h.2.1 none rfl, h.2.2.2.1⟩

/-! ## The Atom Solver calls of the loop -/

theorem visit_solver_log (E : Env Space BMap TYPE) (bmap a : Option BMap) (flags : Nat)
    (st : Acc Space BMap TYPE) :
    (visit E bmap flags st a).calls.filter Call.is_solver =
      st.calls.filter Call.is_solver ++
        [Call.tab_basic_map_partial_lexopt bmap a st.empty.isSome flags] := by
  cases h : st.empty <;>
    simp [visit, isl_basic_map_partial_lexopt, Slot.store, h, List.filter, Call.is_solver]

theorem fold_visit_solver_log (E : Env Space BMap TYPE) (bmap : Option BMap) (flags : Nat)
    (atoms : List (Option BMap)) :
    ∀ st : Acc Space BMap TYPE,
      (atoms.foldl (visit E bmap flags) st).calls.filter Call.is_solver =
        st.calls.filter Call.is_solver ++
          atoms.map (fun a => Call.tab_basic_map_partial_lexopt bmap a st.empty.isSome flags) := by
  induction atoms with
  | nil => intro st; simp
  | cons a atoms ih =>
    intro st
    rw [List.foldl_cons, ih, visit_solver_log, (visit_res E bmap a flags st).2]
    simp

theorem engine_solver_log (E : Env Space BMap TYPE) (bmap : Option BMap)
    (dom : Option (isl_set Space BMap)) (dj : isl_set Space BMap)
    (empty : Slot Space BMap) (flags : Nat) (a0 : BMap) (rest : List BMap)
    (hd : E.isl_set_make_disjoint dom = some dj) (hp : dj.p = a0 :: rest) :
    (basic_map_partial_lexopt E bmap dom empty flags).calls.filter Call.is_solver =
      (a0 :: rest).map
        (fun a => Call.tab_basic_map_partial_lexopt bmap (some a) empty.isSome flags) := by
  rw [engine_cons E bmap dom dj empty flags a0 rest hd hp]
  simp only [finish]
  rw [fold_visit_solver_log, (first_res E bmap dom (some a0) empty flags).2]
  simp [first, isl_basic_map_partial_lexopt, List.filter, Call.is_solver, List.map_map,
    Function.comp_def]

/-- C12 (one solver call per atom, folded left to right).  For a non-empty
disjointified partition `a0, rest`, the Atom Solver calls that
`basic_map_partial_lexopt` makes are exactly one per atom, on the relation,
the atom and the flags, in partition order; the returned result is `ADD`
folded from the left over the solver's results, starting from the result on
`a0`; with a slot, the infeasible region is `isl_set_union_disjoint` folded
from the left over the solver's regions, starting from the region on `a0`;
and for a single atom the solver's result and region are returned as they
are. -/
theorem solver_once_per_atom (E : Env Space BMap TYPE) (R : BMap)
    (D dj : isl_set Space BMap) (empty : Slot Space BMap) (flags : Nat) (a0 : BMap)
    (rest : List BMap)
    (hd : E.isl_set_make_disjoint (some D) = some dj) (hp : dj.p = a0 :: rest) :
    (basic_map_partial_lexopt E (some R) (some D) empty flags).calls.filter Call.is_solver =
        (a0 :: rest).map
          (fun a => Call.tab_basic_map_partial_lexopt (some R) (some a) empty.isSome flags) ∧
      solver_calls (basic_map_partial_lexopt E (some R) (some D) empty flags).calls = dj.n ∧
      (basic_map_partial_lexopt E (some R) (some D) empty flags).res =
        rest.foldl
          (fun acc a => E.ADD acc
            (E.isl_tab_basic_map_partial_lexopt (some R) (some a) empty.isSome flags).1)
          (E.isl_tab_basic_map_partial_lexopt (some R) (some a0) empty.isSome flags).1 ∧
      (∀ c, empty = some c →
        (basic_map_partial_lexopt E (some R) (some D) empty flags).empty =
          some (rest.foldl
            (fun acc a => E.isl_set_union_disjoint acc
              (E.isl_tab_basic_map_partial_lexopt (some R) (some a) true flags).2)
            (E.isl_tab_basic_map_partial_lexopt (some R) (some a0) true flags).2)) ∧
      (rest = [] →
        (basic_map_partial_lexopt E (some R) (some D) empty flags).res =
            (E.isl_tab_basic_map_partial_lexopt (some R) (some a0) empty.isSome flags).1 ∧
          ∀ c, empty = some c →
            (basic_map_partial_lexopt E (some R) (some D) empty flags).empty =
              some (E.isl_tab_basic_map_partial_lexopt (some R) (some a0) true flags).2) := by
  have hlog := engine_solver_log E (some R) (some D) dj empty flags a0 rest hd hp
  have hres := engine_res E (some R) (some D) dj empty flags a0 rest hd hp
  have hemp : ∀ c, empty = some c →
      (basic_map_partial_lexopt E (some R) (some D) empty flags).empty =
        some (rest.foldl
          (fun acc a => E.isl_set_union_disjoint acc
            (E.isl_tab_basic_map_partial_lexopt (some R) (some a) true flags).2)
          (E.isl_tab_basic_map_partial_lexopt (some R) (some a0) true flags).2) := by
    intro c hc
    subst hc
    rw [engine_empty E (some R) (some D) dj c flags a0 rest hd hp, fold_empty, List.foldl_map]
  have hres2 : (basic_map_partial_lexopt E (some R) (some D) empty flags).res =
      rest.foldl
        (fun acc a => E.ADD acc
          (E.isl_tab_basic_map_partial_lexopt (some R) (some a) empty.isSome flags).1)
        (E.isl_tab_basic_map_partial_lexopt (some R) (some a0) empty.isSome flags).1 := by
    rw [hres, fold_res, List.foldl_map]
  refine ⟨hlog, ?_, hres2, hemp, ?_⟩
  · rw [solver_calls, List.countP_eq_length_filter, hlog, List.length_map, isl_map.n, hp]
  · intro hrest
    subst hrest
    refine ⟨by rw [hres2]; rfl, ?_⟩
    intro c hc
    rw [hemp c hc]
    rfl

/-- Witness of C12: the relation `{x -> y : 0 ≤ y ≤ 10}` over the two atoms
of `{x : 0 ≤ x ≤ 5} ∪ {x : 3 ≤ x ≤ 8}`, with a slot: two solver calls. -/
theorem solver_once_per_atom_witness :
    (∃ dj a0 a1, Toy.env.isl_set_make_disjoint
          (some (Toy.region [Toy.interval 0 5, Toy.interval 3 8])) = some dj ∧
        dj.p = [a0, a1] ∧
        (basic_map_partial_lexopt Toy.env (some (Toy.band none 0 10))
            (some (Toy.region [Toy.interval 0 5, Toy.interval 3 8])) (some none) 0).calls.filter
            Call.is_solver =
          [Call.tab_basic_map_partial_lexopt (some (Toy.band none 0 10)) (some a0) true 0,
            Call.tab_basic_map_partial_lexopt (some (Toy.band none 0 10)) (some a1) true 0]) ∧
      solver_calls (basic_map_partial_lexopt Toy.env (some (Toy.band none 0 10))
          (some (Toy.region [Toy.interval 0 5, Toy.interval 3 8])) (some none) 0).calls = 2 :=
  have h := solver_once_per_atom Toy.env (Toy.band none 0 10)
    (Toy.region [Toy.interval 0 5, Toy.interval 3 8])
    { dim := Toy.sp, p := Toy.disjoint_pieces [] [Toy.interval 0 5, Toy.interval 3 8] }
    (some none) 0 _ _ rfl rfl
  ⟨⟨_, _, _, rfl, rfl, h.1⟩, h.2.1⟩

/-! ## The operands of the combinations in the loop -/

theorem visit_none (E : Env Space BMap TYPE) (bmap a : Option BMap) (flags : Nat)
    (st : Acc Space BMap TYPE) (h : st.empty = none) :
    visit E bmap flags st a =
      { res := E.ADD st.res (E.isl_tab_basic_map_partial_lexopt bmap a false flags).1
        empty := none
        all_empty := st.all_empty
        calls := st.calls ++ [Call.tab_basic_map_partial_lexopt bmap a false flags] ++
          [Call.ADD st.res (E.isl_tab_basic_map_partial_lexopt bmap a false flags).1] } := by
  simp [visit, isl_basic_map_partial_lexopt, Slot.store, h]

theorem visit_some (E : Env Space BMap TYPE) (bmap a : Option BMap) (flags : Nat)
    (st : Acc Space BMap TYPE) (c : Option (isl_set Space BMap)) (h : st.empty = some c) :
    visit E bmap flags st a =
      { res := E.ADD st.res (E.isl_tab_basic_map_partial_lexopt bmap a true flags).1
        empty := some (E.isl_tab_basic_map_partial_lexopt bmap a true flags).2
        all_empty := some (E.isl_set_union_disjoint st.read_all_empty
          (E.isl_tab_basic_map_partial_lexopt bmap a true flags).2)
        calls := st.calls ++ [Call.tab_basic_map_partial_lexopt bmap a true flags] ++
          [Call.ADD st.res (E.isl_tab_basic_map_partial_lexopt bmap a true flags).1,
            Call.set_union_disjoint st.read_all_empty
              (E.isl_tab_basic_map_partial_lexopt bmap a true flags).2] } := by
  simp [visit, isl_basic_map_partial_lexopt, Slot.store, h]

theorem fold_visit_operands (S : Sem BMap TYPE X Y) (E : Env Space BMap TYPE) (R : BMap)
    (flags : Nat)
    (hADD : ∀ a b : Option TYPE, S.odom (E.ADD a b) ⊆ S.odom a ∪ S.odom b)
    (hUn : ∀ a b : Option (isl_set Space BMap),
      S.opts (E.isl_set_union_disjoint a b) ⊆ S.opts a ∪ S.opts b)
    (atoms : List BMap) :
    ∀ (st : Acc Space BMap TYPE) (U : Set X),
      (∀ c ∈ st.calls, S.operands_disjoint c) →
      S.odom st.res ⊆ U → S.opts st.read_all_empty ⊆ U →
      (∀ a ∈ atoms, Disjoint U (S.pts a)) →
      atoms.Pairwise (fun a b => Disjoint (S.pts a) (S.pts b)) →
      (∀ a ∈ atoms, S.solver_within E R a st.empty.isSome flags) →
      ∀ c ∈ ((atoms.map some).foldl (visit E (some R) flags) st).calls,
        S.operands_disjoint c := by
  induction atoms with
  | nil =>
    intro st U hc _ _ _ _ _
    simpa using hc
  | cons a atoms ih =>
    intro st U hc hrU heU hdU hpw hin
    have hUa : Disjoint U (S.pts a) := hdU a (List.mem_cons_self _ _)
    have hpw1 := List.pairwise_cons.mp hpw
    obtain ⟨hra, hea⟩ := hin a (List.mem_cons_self _ _)
    have hdU2 : ∀ b ∈ atoms, Disjoint (U ∪ S.pts a) (S.pts b) := by
      intro b hb
      rw [Set.disjoint_union_left]
      exact ⟨hdU b (List.mem_cons_of_mem _ hb), hpw1.1 b hb⟩
    have hsome := (visit_res E (some R) (some a) flags st).2
    rw [List.map_cons, List.foldl_cons]
    apply ih (visit E (some R) flags st (some a)) (U ∪ S.pts a) ?_ ?_ ?_ hdU2 hpw1.2
    · intro b hb
      rw [hsome]
      exact hin b (List.mem_cons_of_mem _ hb)
    · intro c hcm
      cases hs : st.empty with
      | none =>
        rw [hs] at hra
        rw [visit_none E (some R) (some a) flags st hs] at hcm
        simp only [List.mem_append, List.mem_singleton] at hcm
        rcases hcm with (hcm | hcm) | hcm
        · exact hc c hcm
        · subst hcm
          trivial
        · subst hcm
          exact Set.disjoint_of_subset hrU hra hUa
      | some w =>
        rw [hs] at hra hea
        rw [visit_some E (some R) (some a) flags st w hs] at hcm
        simp only [List.mem_append, List.mem_singleton, List.mem_cons, List.not_mem_nil,
          or_false] at hcm
        rcases hcm with (hcm | hcm) | hcm | hcm
        · exact hc c hcm
        · subst hcm
          trivial
        · subst hcm
          exact Set.disjoint_of_subset hrU hra hUa
        · subst hcm
          exact Set.disjoint_of_subset heU hea hUa
    · cases hs : st.empty with
      | none =>
        rw [hs] at hra
        rw [visit_none E (some R) (some a) flags st hs]
        exact (hADD _ _).trans (Set.union_subset_union hrU hra)
      | some w =>
        rw [hs] at hra
        rw [visit_some E (some R) (some a) flags st w hs]
        exact (hADD _ _).trans (Set.union_subset_union hrU hra)
    · cases hs : st.empty with
      | none =>
        rw [visit_none E (some R) (some a) flags st hs]
        exact heU.trans Set.subset_union_left
      | some w =>
        rw [hs] at hea
        rw [visit_some E (some R) (some a) flags st w hs]
        exact (hUn _ _).trans (Set.union_subset_union heU hea)

/-- C13 (the disjointness precondition of every combination holds).  Let the
atoms of the disjointified partition be pairwise disjoint, let the Atom
Solver's result domain and infeasible region on every atom lie inside that
atom, and let `ADD` and `isl_set_union_disjoint` return values inside the
union of their operands.  Then at every `ADD` call of
`basic_map_partial_lexopt` the accumulated result and the new per-atom result
have disjoint domains, and at every `isl_set_union_disjoint` call the
accumulated region and the new per-atom region are disjoint. -/
theorem combinations_disjoint (S : Sem BMap TYPE X Y) (E : Env Space BMap TYPE) (R : BMap)
    (D dj : isl_set Space BMap) (empty : Slot Space BMap) (flags : Nat)
    (hd : E.isl_set_make_disjoint (some D) = some dj)
    (hpw : dj.p.Pairwise (fun a b => Disjoint (S.pts a) (S.pts b)))
    (hin : ∀ a ∈ dj.p, S.solver_within E R a empty.isSome flags)
    (hADD : ∀ a b : Option TYPE, S.odom (E.ADD a b) ⊆ S.odom a ∪ S.odom b)
    (hUn : ∀ a b : Option (isl_set Space BMap),
      S.opts (E.isl_set_union_disjoint a b) ⊆ S.opts a ∪ S.opts b) :
    ∀ c ∈ (basic_map_partial_lexopt E (some R) (some D) empty flags).calls,
      S.operands_disjoint c := by
  cases hp : dj.p with
  | nil =>
    rw [engine_nil E (some R) (some D) dj empty flags hd hp]
    intro c hc
    simp only [List.mem_cons, List.mem_singleton, List.not_mem_nil, or_false] at hc
    rcases hc with hc | hc <;> subst hc <;> trivial
  | cons a0 rest =>
    rw [hp] at hpw hin
    have hpw1 := List.pairwise_cons.mp hpw
    obtain ⟨hr0, he0⟩ := hin a0 (List.mem_cons_self _ _)
    rw [engine_cons E (some R) (some D) dj empty flags a0 rest hd hp]
    simp only [finish]
    have hsome := (first_res E (some R) (some D) (some a0) empty flags).2
    apply fold_visit_operands S E R flags hADD hUn rest
      (first E (some R) (some D) (some a0) empty flags) (S.pts a0) ?_ ?_ ?_ hpw1.1 hpw1.2
    · intro b hb
      rw [hsome]
      exact hin b (List.mem_cons_of_mem _ hb)
    · intro c hc
      simp only [first, isl_basic_map_partial_lexopt, List.mem_cons, List.mem_singleton,
        List.not_mem_nil, or_false] at hc
      rcases hc with hc | hc <;> subst hc <;> trivial
    · rw [(first_res E (some R) (some D) (some a0) empty flags).1]
      exact hr0
    · cases empty with
      | none =>
        simp [first, isl_basic_map_partial_lexopt, Slot.store, Acc.read_all_empty, Sem.opts]
      | some w =>
        simpa [first, isl_basic_map_partial_lexopt, Slot.store, Acc.read_all_empty] using he0

theorem toy_solver_within (R a : Toy.Piece) (b : Bool) (flags : Nat) :
    Toy.sem.solver_within Toy.env R a b flags := by
  constructor
  · rintro x ⟨y, q, hq, h1, _⟩
    simp only [List.mem_singleton] at hq
    subst hq
    simp only [Bool.and_eq_true] at h1
    exact h1.1
  · rintro x ⟨q, hq, h1⟩
    simp only [List.mem_singleton] at hq
    subst hq
    simp only [Toy.sem, Set.mem_setOf_eq, Bool.and_eq_true] at h1
    exact h1.1

theorem toy_ADD_within (a b : Option (isl_map Toy.Space0 Toy.Piece)) :
    Toy.sem.odom (Toy.env.ADD a b) ⊆ Toy.sem.odom a ∪ Toy.sem.odom b := by
  cases a with
  | none => intro x hx; cases hx
  | some a =>
    cases b with
    | none => intro x hx; cases hx
    | some b =>
      rintro x ⟨y, q, hq, h⟩
      rcases List.mem_append.mp hq with hq | hq
      · exact Or.inl ⟨y, q, hq, h⟩
      · exact Or.inr ⟨y, q, hq, h⟩

theorem toy_union_within (a b : Option (isl_set Toy.Space0 Toy.Piece)) :
    Toy.sem.opts (Toy.env.isl_set_union_disjoint a b) ⊆ Toy.sem.opts a ∪ Toy.sem.opts b := by
  cases a with
  | none => intro x hx; cases hx
  | some a =>
    cases b with
    | none => intro x hx; cases hx
    | some b =>
      rintro x ⟨q, hq, h⟩
      rcases List.mem_append.mp hq with hq | hq
      · exact Or.inl ⟨q, hq, h⟩
      · exact Or.inr ⟨q, hq, h⟩

/-- Witness of C13: the relation `{x -> y : 0 ≤ y ≤ 10}` over the two atoms
of `{x : 0 ≤ x ≤ 5} ∪ {x : 3 ≤ x ≤ 8}`, with a slot: the log holds one `ADD`
and one region union, each on disjoint operands. -/
theorem combinations_disjoint_witness :
    ((basic_map_partial_lexopt Toy.env (some (Toy.band none 0 10))
          (some (Toy.region [Toy.interval 0 5, Toy.interval 3 8])) (some none) 0).calls.filter
          Call.is_union).length = 1 ∧
      ∀ c ∈ (basic_map_partial_lexopt Toy.env (some (Toy.band none 0 10))
          (some (Toy.region [Toy.interval 0 5, Toy.interval 3 8])) (some none) 0).calls,
        Toy.sem.operands_disjoint c :=
  ⟨rfl,
    combinations_disjoint Toy.sem Toy.env (Toy.band none 0 10)
      (Toy.region [Toy.interval 0 5, Toy.interval 3 8])
      { dim := Toy.sp, p := Toy.disjoint_pieces [] [Toy.interval 0 5, Toy.interval 3 8] }
      (some none) 0 rfl (toy_disjointifies_two _ _).2.1
      (fun a _ => toy_solver_within _ a _ 0) toy_ADD_within toy_union_within⟩

/-! ## The order of the atoms -/

theorem fold_res_graph (S : Sem BMap TYPE X Y) (E : Env Space BMap TYPE) (R : BMap)
    (b : Bool) (flags : Nat) (hADD : S.ADD_is_union E) (atoms : List BMap) :
    ∀ (U : Set X) (r : TYPE), S.rdom r ⊆ U →
      (∀ a ∈ atoms, Disjoint U (S.pts a)) →
      atoms.Pairwise (fun a b => Disjoint (S.pts a) (S.pts b)) →
      (∀ a ∈ atoms, ∃ r_a,
        (E.isl_tab_basic_map_partial_lexopt (some R) (some a) b flags).1 = some r_a ∧
          S.rdom r_a ⊆ S.pts a) →
      ∃ r1, fold_res E (some R) b flags (some r) (atoms.map some) = some r1 ∧
        ∀ z, z ∈ S.graph r1 ↔ z ∈ S.graph r ∨ ∃ a ∈ atoms, ∃ r_a,
          (E.isl_tab_basic_map_partial_lexopt (some R) (some a) b flags).1 = some r_a ∧
            z ∈ S.graph r_a := by
  induction atoms with
  | nil =>
    intro U r _ _ _ _
    exact ⟨r, rfl, by simp⟩
  | cons a atoms ih =>
    intro U r hrU hdU hpw hsol
    obtain ⟨r_a, hs, hra⟩ := hsol a (List.mem_cons_self _ _)
    have hUa : Disjoint U (S.pts a) := hdU a (List.mem_cons_self _ _)
    obtain ⟨r2, hr2, hg2⟩ := hADD r r_a (Set.disjoint_of_subset hrU hra hUa)
    have hpw1 := List.pairwise_cons.mp hpw
    have hrU2 : S.rdom r2 ⊆ U ∪ S.pts a := by
      rintro x ⟨y, hy⟩
      rw [hg2] at hy
      rcases hy with hy | hy
      · exact Or.inl (hrU ⟨y, hy⟩)
      · exact Or.inr (hra ⟨y, hy⟩)
    have hdU2 : ∀ c ∈ atoms, Disjoint (U ∪ S.pts a) (S.pts c) := by
      intro c hc
      rw [Set.disjoint_union_left]
      exact ⟨hdU c (List.mem_cons_of_mem _ hc), hpw1.1 c hc⟩
    obtain ⟨r1, hr1, hg1⟩ := ih (U ∪ S.pts a) r2 hrU2 hdU2 hpw1.2
      (fun c hc => hsol c (List.mem_cons_of_mem _ hc))
    refine ⟨r1, ?_, ?_⟩
    · simp only [fold_res, List.map_cons, List.foldl_cons, hs, hr2]
      exact hr1
    · intro z
      rw [hg1 z, hg2]
      constructor
      · rintro ((h | h) | ⟨c, hc, h⟩)
        · exact Or.inl h
        · exact Or.inr ⟨a, List.mem_cons_self _ _, r_a, hs, h⟩
        · exact Or.inr ⟨c, List.mem_cons_of_mem _ hc, h⟩
      · rintro (h | ⟨c, hc, q, hq, h⟩)
        · exact Or.inl (Or.inl h)
        · rcases List.mem_cons.mp hc with hc | hc
          · subst hc
            rw [hs] at hq
            cases hq
            exact Or.inl (Or.inr h)
          · exact Or.inr ⟨c, hc, q, hq, h⟩

theorem fold_empty_pts (S : Sem BMap TYPE X Y) (E : Env Space BMap TYPE) (R : BMap)
    (flags : Nat) (hUn : S.union_is_union E) (atoms : List BMap) :
    ∀ (U : Set X) (e : isl_set Space BMap), S.set_pts e ⊆ U →
      (∀ a ∈ atoms, Disjoint U (S.pts a)) →
      atoms.Pairwise (fun a b => Disjoint (S.pts a) (S.pts b)) →
      (∀ a ∈ atoms, ∃ e_a,
        (E.isl_tab_basic_map_partial_lexopt (some R) (some a) true flags).2 = some e_a ∧
          S.set_pts e_a ⊆ S.pts a) →
      ∃ e1, fold_empty E (some R) flags (some e) (atoms.map some) = some e1 ∧
        ∀ x, x ∈ S.set_pts e1 ↔ x ∈ S.set_pts e ∨ ∃ a ∈ atoms, ∃ e_a,
          (E.isl_tab_basic_map_partial_lexopt (some R) (some a) true flags).2 = some e_a ∧
            x ∈ S.set_pts e_a := by
  induction atoms with
  | nil =>
    intro U e _ _ _ _
    exact ⟨e, rfl, by simp⟩
  | cons a atoms ih =>
    intro U e heU hdU hpw hsol
    obtain ⟨e_a, hs, hea⟩ := hsol a (List.mem_cons_self _ _)
    have hUa : Disjoint U (S.pts a) := hdU a (List.mem_cons_self _ _)
    obtain ⟨e2, he2, hp2⟩ := hUn e e_a (Set.disjoint_of_subset heU hea hUa)
    have hpw1 := List.pairwise_cons.mp hpw
    have heU2 : S.set_pts e2 ⊆ U ∪ S.pts a := by
      rw [hp2]
      exact Set.union_subset_union heU hea
    have hdU2 : ∀ c ∈ atoms, Disjoint (U ∪ S.pts a) (S.pts c) := by
      intro c hc
      rw [Set.disjoint_union_left]
      exact ⟨hdU c (List.mem_cons_of_mem _ hc), hpw1.1 c hc⟩
    obtain ⟨e1, he1, hp1⟩ := ih (U ∪ S.pts a) e2 heU2 hdU2 hpw1.2
      (fun c hc => hsol c (List.mem_cons_of_mem _ hc))
    refine ⟨e1, ?_, ?_⟩
    · simp only [fold_empty, List.map_cons, List.foldl_cons, hs, he2]
      exact he1
    · intro x
      rw [hp1 x, hp2]
      constructor
      · rintro ((h | h) | ⟨c, hc, h⟩)
        · exact Or.inl h
        · exact Or.inr ⟨a, List.mem_cons_self _ _, e_a, hs, h⟩
        · exact Or.inr ⟨c, List.mem_cons_of_mem _ hc, h⟩
      · rintro (h | ⟨c, hc, q, hq, h⟩)
        · exact Or.inl (Or.inl h)
        · rcases List.mem_cons.mp hc with hc | hc
          · subst hc
            rw [hs] at hq
            cases hq
            exact Or.inl (Or.inr h)
          · exact Or.inr ⟨c, hc, q, hq, h⟩

theorem engine_graph_cons (S : Sem BMap TYPE X Y) (E : Env Space BMap TYPE) (R : BMap)
    (dom : Option (isl_set Space BMap)) (dj : isl_set Space BMap) (empty : Slot Space BMap)
    (flags : Nat) (a0 : BMap) (rest : List BMap)
    (hd : E.isl_set_make_disjoint dom = some dj) (hp : dj.p = a0 :: rest)
    (hpw : dj.p.Pairwise (fun a b => Disjoint (S.pts a) (S.pts b)))
    (hADD : S.ADD_is_union E) (hUn : S.union_is_union E)
    (hsol : ∀ a ∈ dj.p, S.solver_present_within E R a empty.isSome flags) :
    (∃ r, (basic_map_partial_lexopt E (some R) dom empty flags).res = some r ∧
        ∀ z, z ∈ S.graph r ↔ ∃ a ∈ dj.p, ∃ r_a,
          (E.isl_tab_basic_map_partial_lexopt (some R) (some a) empty.isSome flags).1 =
            some r_a ∧ z ∈ S.graph r_a) ∧
      (∀ c, empty = some c →
        ∃ e, (basic_map_partial_lexopt E (some R) dom empty flags).empty = some (some e) ∧
          ∀ x, x ∈ S.set_pts e ↔ ∃ a ∈ dj.p, ∃ e_a,
            (E.isl_tab_basic_map_partial_lexopt (some R) (some a) true flags).2 = some e_a ∧
              x ∈ S.set_pts e_a) := by
  rw [hp] at hpw hsol
  have hpw1 := List.pairwise_cons.mp hpw
  constructor
  · obtain ⟨⟨r0, hs0, hr0⟩, _⟩ := hsol a0 (List.mem_cons_self _ _)
    obtain ⟨r1, hr1, hg1⟩ := fold_res_graph S E R empty.isSome flags hADD rest (S.pts a0) r0
      hr0 hpw1.1 hpw1.2 (fun c hc => (hsol c (List.mem_cons_of_mem _ hc)).1)
    refine ⟨r1, ?_, ?_⟩
    · rw [engine_res E (some R) dom dj empty flags a0 rest hd hp, hs0]
      exact hr1
    · intro z
      rw [hg1 z, hp]
      constructor
      · rintro (h | ⟨c, hc, h⟩)
        · exact ⟨a0, List.mem_cons_self _ _, r0, hs0, h⟩
        · exact ⟨c, List.mem_cons_of_mem _ hc, h⟩
      · rintro ⟨c, hc, q, hq, h⟩
        rcases List.mem_cons.mp hc with hc | hc
        · subst hc
          rw [hs0] at hq
          cases hq
          exact Or.inl h
        · exact Or.inr ⟨c, hc, q, hq, h⟩
  · intro c hc
    subst hc
    obtain ⟨_, he⟩ := hsol a0 (List.mem_cons_self _ _)
    obtain ⟨e0, hs0, he0⟩ := he rfl
    obtain ⟨e1, he1, hp1⟩ := fold_empty_pts S E R flags hUn rest (S.pts a0) e0
      he0 hpw1.1 hpw1.2 (fun b hb => (hsol b (List.mem_cons_of_mem _ hb)).2 rfl)
    have hs0t : (E.isl_tab_basic_map_partial_lexopt (some R) (some a0) true flags).2 =
        some e0 := hs0
    refine ⟨e1, ?_, ?_⟩
    · rw [engine_empty E (some R) dom dj c flags a0 rest hd hp, hs0t, he1]
    · intro x
      rw [hp1 x, hp]
      constructor
      · rintro (h | ⟨b, hb, h⟩)
        · exact ⟨a0, List.mem_cons_self _ _, e0, hs0t, h⟩
        · exact ⟨b, List.mem_cons_of_mem _ hb, h⟩
      · rintro ⟨b, hb, q, hq, h⟩
        rcases List.mem_cons.mp hb with hb | hb
        · subst hb
          rw [hs0t] at hq
          cases hq
          exact Or.inl h
        · exact Or.inr ⟨b, hb, q, hq, h⟩

/-- C14 (order-independence).  Let two runs of `basic_map_partial_lexopt` on
the relation `R` get from disjointification the same pairwise-disjoint atoms
in two orders (`dj1.p` is a permutation of `dj2.p`), let `ADD` and
`isl_set_union_disjoint` denote set union on disjoint operands, and let the
Atom Solver return on every atom present outputs inside the atom.  Then the
two returned results denote the same set of pairs (both are present when
there is an atom), and, with a slot, the two returned infeasible regions
denote the same point set. -/
theorem order_independent (S : Sem BMap TYPE X Y) (E : Env Space BMap TYPE) (R : BMap)
    (D1 D2 dj1 dj2 : isl_set Space BMap) (empty : Slot Space BMap) (flags : Nat)
    (hd1 : E.isl_set_make_disjoint (some D1) = some dj1)
    (hd2 : E.isl_set_make_disjoint (some D2) = some dj2)
    (hperm : dj1.p.Perm dj2.p)
    (hpw : dj1.p.Pairwise (fun a b => Disjoint (S.pts a) (S.pts b)))
    (hADD : S.ADD_is_union E) (hUn : S.union_is_union E)
    (hsol : ∀ a ∈ dj1.p, S.solver_present_within E R a empty.isSome flags) :
    Option.map S.graph (basic_map_partial_lexopt E (some R) (some D1) empty flags).res =
        Option.map S.graph (basic_map_partial_lexopt E (some R) (some D2) empty flags).res ∧
      (dj1.p ≠ [] →
        ∃ r1 r2, (basic_map_partial_lexopt E (some R) (some D1) empty flags).res = some r1 ∧
          (basic_map_partial_lexopt E (some R) (some D2) empty flags).res = some r2 ∧
          S.graph r1 = S.graph r2) ∧
      (∀ c, empty = some c →
        ∃ e1 e2,
          (basic_map_partial_lexopt E (some R) (some D1) empty flags).empty = some (some e1) ∧
          (basic_map_partial_lexopt E (some R) (some D2) empty flags).empty = some (some e2) ∧
          S.set_pts e1 = S.set_pts e2) := by
  cases hp1 : dj1.p with
  | nil =>
    have hp2 : dj2.p = [] := by
      rw [hp1] at hperm
      exact List.nil_perm.mp hperm
    rw [engine_nil E (some R) (some D1) dj1 empty flags hd1 hp1,
      engine_nil E (some R) (some D2) dj2 empty flags hd2 hp2]
    refine ⟨rfl, fun h => absurd rfl h, ?_⟩
    intro c hc
    subst hc
    refine ⟨dj1, dj2, rfl, rfl, ?_⟩
    ext x
    simp [Sem.set_pts, hp1, hp2]
  | cons a0 rest =>
    cases hp2 : dj2.p with
    | nil =>
      rw [hp1, hp2] at hperm
      exact absurd (List.perm_nil.mp hperm) (List.cons_ne_nil _ _)
    | cons b0 rest2 =>
      have hpw2 : dj2.p.Pairwise (fun a b => Disjoint (S.pts a) (S.pts b)) :=
        hperm.pairwise hpw (fun h => h.symm)
      have hsol2 : ∀ a ∈ dj2.p, S.solver_present_within E R a empty.isSome flags :=
        fun a ha => hsol a (hperm.mem_iff.mpr ha)
      obtain ⟨⟨r1, hr1, hg1⟩, hs1⟩ := engine_graph_cons S E R (some D1) dj1 empty flags a0
        rest hd1 hp1 hpw hADD hUn hsol
      obtain ⟨⟨r2, hr2, hg2⟩, hs2⟩ := engine_graph_cons S E R (some D2) dj2 empty flags b0
        rest2 hd2 hp2 hpw2 hADD hUn hsol2
      have hg : S.graph r1 = S.graph r2 := by
        ext z
        rw [hg1 z, hg2 z]
        constructor
        · rintro ⟨a, ha, h⟩
          exact ⟨a, hperm.mem_iff.mp ha, h⟩
        · rintro ⟨a, ha, h⟩
          exact ⟨a, hperm.mem_iff.mpr ha, h⟩
      refine ⟨by rw [hr1, hr2, Option.map_some', Option.map_some', hg],
        fun _ => ⟨r1, r2, hr1, hr2, hg⟩, ?_⟩
      intro c hc
      obtain ⟨e1, he1, hx1⟩ := hs1 c hc
      obtain ⟨e2, he2, hx2⟩ := hs2 c hc
      refine ⟨e1, e2, he1, he2, ?_⟩
      ext x
      rw [hx1 x, hx2 x]
      constructor
      · rintro ⟨a, ha, h⟩
        exact ⟨a, hperm.mem_iff.mp ha, h⟩
      · rintro ⟨a, ha, h⟩
        exact ⟨a, hperm.mem_iff.mpr ha, h⟩

theorem toy_solver_present_within (R a : Toy.Piece) (b : Bool) (flags : Nat) :
    Toy.sem.solver_present_within Toy.env R a b flags := by
  obtain ⟨h1, h2⟩ := toy_solver_within R a b flags
  exact ⟨⟨_, rfl, h1⟩, fun _ => ⟨_, rfl, h2⟩⟩

theorem toy_intervals_apart :
    [Toy.interval 0 2, Toy.interval 5 8].Pairwise
      (fun a b => Disjoint (Toy.sem.pts a) (Toy.sem.pts b)) := by
  simp only [List.pairwise_cons, List.mem_singleton, forall_eq, List.not_mem_nil,
    false_implies, implies_true, List.Pairwise.nil, and_true]
  rw [Set.disjoint_left]
  intro x h1 h2
  simp only [Toy.sem, Toy.interval, Set.mem_setOf_eq, Bool.and_eq_true,
    decide_eq_true_eq] at h1 h2
  omega

/-- Witness of C14: the relation `{x -> y : 0 ≤ y ≤ 10}` over the atoms
`{x : 0 ≤ x ≤ 2}` and `{x : 5 ≤ x ≤ 8}` in the two orders, with a slot. -/
theorem order_independent_witness :
    [Toy.interval 0 2, Toy.interval 5 8].Perm [Toy.interval 5 8, Toy.interval 0 2] ∧
      ∃ r1 r2 e1 e2,
        (basic_map_partial_lexopt Toy.env_keep (some (Toy.band none 0 10))
          (some (Toy.region [Toy.interval 0 2, Toy.interval 5 8])) (some none) 0).res
            = some r1 ∧
        (basic_map_partial_lexopt Toy.env_keep (some (Toy.band none 0 10))
          (some (Toy.region [Toy.interval 5 8, Toy.interval 0 2])) (some none) 0).res
            = some r2 ∧
        Toy.sem.graph r1 = Toy.sem.graph r2 ∧
        (basic_map_partial_lexopt Toy.env_keep (some (Toy.band none 0 10))
          (some (Toy.region [Toy.interval 0 2, Toy.interval 5 8])) (some none) 0).empty
            = some (some e1) ∧
        (basic_map_partial_lexopt Toy.env_keep (some (Toy.band none 0 10))
          (some (Toy.region [Toy.interval 5 8, Toy.interval 0 2])) (some none) 0).empty
            = some (some e2) ∧
        Toy.sem.set_pts e1 = Toy.sem.set_pts e2 :=
  have h := order_independent Toy.sem Toy.env_keep (Toy.band none 0 10)
    (Toy.region [Toy.interval 0 2, Toy.interval 5 8])
    (Toy.region [Toy.interval 5 8, Toy.interval 0 2])
    (Toy.region [Toy.interval 0 2, Toy.interval 5 8])
    (Toy.region [Toy.interval 5 8, Toy.interval 0 2]) (some none) 0 rfl rfl
    (List.Perm.swap _ _ _) toy_intervals_apart toy_ADD_is_union toy_union_is_union
    (fun a _ => toy_solver_present_within _ a _ 0)
  ⟨List.Perm.swap _ _ _,
    match h.2.1 (List.cons_ne_nil _ _), h.2.2 none rfl with
    | ⟨r1, r2, hr1, hr2, hg⟩, ⟨e1, e2, he1, he2, hp⟩ =>
      ⟨r1, r2, e1, e2, hr1, hr2, hg, he1, he2, hp⟩⟩

/-! ## The domain of the total union-level entry point -/

/-- The domain that `isl_map_lexopt` hands on is not the intrinsic domain
itself: for the relation `{x -> y : x ≤ 10, 0 ≤ y ≤ 10}` no call of the
aligned partial computation has the intrinsic domain of the relation as its
domain; the one domain handed over is the universe, which holds `x = 11`,
an input without an image. -/
theorem lexopt_domain_not_intrinsic :
    ¬ ∃ d, Call.map_partial_lexopt_aligned (some (Toy.region [Toy.band (some 10) 0 10]))
          (some d) false 0 ∈
          (isl_map_lexopt Toy.env (some (Toy.region [Toy.band (some 10) 0 10])) 0).calls ∧
        Toy.sem.set_pts d =
          Toy.sem.intrinsic_domain (Toy.region [Toy.band (some 10) 0 10]) := by
  rintro ⟨d, hmem, hpts⟩
  have hcalls : (isl_map_lexopt Toy.env (some (Toy.region [Toy.band (some 10) 0 10])) 0).calls =
      [Call.space_domain (some Toy.sp),
        Call.set_universe (Toy.space_domain (some Toy.sp)),
        Call.space_match Toy.sp isl_dim_type.isl_dim_param
          { params := [], n_in := 1, n_out := 0 } isl_dim_type.isl_dim_param,
        Call.map_partial_lexopt_aligned (some (Toy.region [Toy.band (some 10) 0 10]))
          (Toy.set_universe (Toy.space_domain (some Toy.sp))) false 0] := rfl
  rw [hcalls] at hmem
  simp only [List.mem_cons, List.mem_singleton, List.not_mem_nil, or_false, reduceCtorEq,
    false_or, Call.map_partial_lexopt_aligned.injEq, true_and, and_true] at hmem
  have h11 : (11 : Int) ∈ Toy.sem.set_pts d := by
    have hd : some d = Toy.set_universe (Toy.space_domain (some Toy.sp)) := hmem
    simp only [Toy.set_universe, Toy.space_domain, Option.map_some', Option.some.injEq] at hd
    rw [hd]
    exact ⟨_, List.mem_singleton.mpr rfl, rfl⟩
  rw [hpts] at h11
  obtain ⟨b, hb, y, hy, _⟩ := h11
  simp only [Toy.region, List.mem_singleton] at hb
  subst hb
  simp [Toy.band] at hy

/-- The total union-level entry point as the code runs it: for a present
relation union `M`, `isl_map_lexopt` returns the result of
`isl_map_partial_lexopt` run on `M` with the universe set of the domain of
`M`'s space as the domain, without a slot and with the flags unchanged; its
outside calls are the two that build this domain followed by those of the
partial computation. -/
theorem lexopt_over_universe (E : Env Space BMap TYPE) (M : isl_map Space BMap)
    (flags : Nat) :
    (isl_map_lexopt E (some M) flags).res =
        (isl_map_partial_lexopt E (some M)
          (E.isl_set_universe (E.isl_space_domain (some M.dim))) none flags).res ∧
      (isl_map_lexopt E (some M) flags).empty =
        (isl_map_partial_lexopt E (some M)
          (E.isl_set_universe (E.isl_space_domain (some M.dim))) none flags).empty ∧
      (isl_map_lexopt E (some M) flags).calls =
        [Call.space_domain (some M.dim),
            Call.set_universe (E.isl_space_domain (some M.dim))] ++
          (isl_map_partial_lexopt E (some M)
            (E.isl_set_universe (E.isl_space_domain (some M.dim))) none flags).calls :=
  ⟨rfl, rfl, rfl⟩

theorem partial_on_match (E : Env Space BMap TYPE) (M : isl_map Space BMap)
    (d : isl_set Space BMap) (empty : Slot Space BMap) (flags : Nat)
    (hm : E.isl_space_match M.dim isl_dim_type.isl_dim_param d.dim
      isl_dim_type.isl_dim_param = true) :
    isl_map_partial_lexopt E (some M) (some d) empty flags =
      { res := (E.isl_map_partial_lexopt_aligned (some M) (some d) empty.isSome flags).1
        empty := empty.store
          (E.isl_map_partial_lexopt_aligned (some M) (some d) empty.isSome flags).2
        calls := [Call.space_match M.dim isl_dim_type.isl_dim_param d.dim
            isl_dim_type.isl_dim_param,
          Call.map_partial_lexopt_aligned (some M) (some d) empty.isSome flags] } := by
  simp [isl_map_partial_lexopt, isl_map_partial_lexopt_aligned, hm]

/-- C15 (domain used by the total union-level entry point), with the aligned
partial computation as the spec describes it.  Let `u` be the set that
`isl_map_lexopt` builds from the space of the present relation union `M`
(the universe of its domain space), covering the intrinsic domain of `M`, let
`d0` be a region whose points are the intrinsic domain of `M`, let the
parameters of both match those of `M`, and let the aligned partial
computation be exact on both.  Then `isl_map_lexopt` returns a result with
the same pairs as the result of `isl_map_partial_lexopt` run on `M` with the
domain `d0` and no slot (the identical result when the aligned computation
returns the same value on `u` and `d0`); it requests no slot, and it passes
the flags on unchanged. -/
theorem lexopt_result_over_intrinsic_domain (S : Sem BMap TYPE X Tuple)
    (E : Env Space BMap TYPE) (M : isl_map Space BMap) (u d0 : isl_set Space BMap)
    (flags : Nat)
    (hu : E.isl_set_universe (E.isl_space_domain (some M.dim)) = some u)
    (hcov : S.intrinsic_domain M ⊆ S.set_pts u)
    (hd0 : S.set_pts d0 = S.intrinsic_domain M)
    (hmu : E.isl_space_match M.dim isl_dim_type.isl_dim_param u.dim
      isl_dim_type.isl_dim_param = true)
    (hmd : E.isl_space_match M.dim isl_dim_type.isl_dim_param d0.dim
      isl_dim_type.isl_dim_param = true)
    (hexu : S.aligned_exact E M u flags) (hexd : S.aligned_exact E M d0 flags) :
    (∃ r r0, (isl_map_lexopt E (some M) flags).res = some r ∧
        (isl_map_partial_lexopt E (some M) (some d0) none flags).res = some r0 ∧
        S.graph r = S.graph r0) ∧
      ((E.isl_map_partial_lexopt_aligned (some M) (some u) false flags).1 =
          (E.isl_map_partial_lexopt_aligned (some M) (some d0) false flags).1 →
        (isl_map_lexopt E (some M) flags).res =
          (isl_map_partial_lexopt E (some M) (some d0) none flags).res) ∧
      (isl_map_lexopt E (some M) flags).empty = none ∧
      (isl_map_partial_lexopt E (some M) (some d0) none flags).empty = none ∧
      (isl_map_lexopt E (some M) flags).calls.filter Call.is_aligned =
        [Call.map_partial_lexopt_aligned (some M) (some u) false flags] ∧
      (isl_map_partial_lexopt E (some M) (some d0) none flags).calls.filter Call.is_aligned =
        [Call.map_partial_lexopt_aligned (some M) (some d0) false flags] := by
  have hlex : isl_map_lexopt E (some M) flags =
      { res := (E.isl_map_partial_lexopt_aligned (some M) (some u) false flags).1
        empty := none
        calls := [Call.space_domain (some M.dim),
          Call.set_universe (E.isl_space_domain (some M.dim)),
          Call.space_match M.dim isl_dim_type.isl_dim_param u.dim isl_dim_type.isl_dim_param,
          Call.map_partial_lexopt_aligned (some M) (some u) false flags] } := by
    simp [isl_map_lexopt, hu, partial_on_match E M u none flags hmu, Slot.store]
  have hpar := partial_on_match E M d0 none flags hmd
  obtain ⟨r, hr, hgr⟩ := hexu
  obtain ⟨r0, hr0, hgr0⟩ := hexd
  rw [hlex, hpar]
  refine ⟨⟨r, r0, hr, hr0, ?_⟩, fun h => h, rfl, rfl, ?_, ?_⟩
  · ext ⟨x, y⟩
    rw [hgr x y, hgr0 x y, hd0]
    constructor
    · rintro ⟨_, hopt⟩
      obtain ⟨b, hb, hxy⟩ := hopt.1
      exact ⟨⟨b, hb, y, hxy⟩, hopt⟩
    · rintro ⟨hx, hopt⟩
      exact ⟨hcov hx, hopt⟩
  · simp [List.filter, Call.is_aligned]
  · simp [List.filter, Call.is_aligned]

theorem toy_aligned_exact (R a : Toy.Piece) (dim : Toy.Space0) (flags : Nat) :
    Toy.sem.aligned_exact Toy.env (Toy.region [R]) { dim := dim, p := [a] } flags := by
  obtain ⟨r, hr, hex, _⟩ := toy_solver_exact R
    { a with inp := fun x => a.inp x && !(([] : List Toy.Piece).any (fun b => b.inp x)) }
    false flags
  refine ⟨r, ?_, ?_⟩
  · rw [← hr]
    rfl
  · intro x y
    rw [hex x y]
    have h1 : x ∈ Toy.sem.pts
        { a with inp := fun x => a.inp x && !(([] : List Toy.Piece).any (fun b => b.inp x)) } ↔
        x ∈ Toy.sem.set_pts ({ dim := dim, p := [a] } : isl_set Toy.Space0 Toy.Piece) := by
      simp [Toy.sem, Sem.set_pts]
    have h2 : ∀ z : Int × Tuple, z ∈ Toy.sem.rel R ↔ z ∈ Toy.sem.map_rel (Toy.region [R]) := by
      intro z
      simp [Sem.map_rel, Toy.region]
    rw [h1]
    simp only [Sem.is_lexopt, Sem.is_lexopt_map, h2]

/-- Witness of C15: the relation `{x -> y : x ≤ 10, 0 ≤ y ≤ 10}`, minimizing:
the result of `isl_map_lexopt` has the pairs of the partial optimum over the
intrinsic domain `{x : x ≤ 10}`. -/
theorem lexopt_result_over_intrinsic_domain_witness :
    Toy.sem.set_pts (Toy.domain_region (Toy.band (some 10) 0 10)) =
        Toy.sem.intrinsic_domain (Toy.region [Toy.band (some 10) 0 10]) ∧
      ∃ r r0, (isl_map_lexopt Toy.env (some (Toy.region [Toy.band (some 10) 0 10])) 0).res
          = some r ∧
        (isl_map_partial_lexopt Toy.env (some (Toy.region [Toy.band (some 10) 0 10]))
          (some (Toy.domain_region (Toy.band (some 10) 0 10))) none 0).res = some r0 ∧
        Toy.sem.graph r = Toy.sem.graph r0 :=
  have hd0 : Toy.sem.set_pts (Toy.domain_region (Toy.band (some 10) 0 10)) =
      Toy.sem.intrinsic_domain (Toy.region [Toy.band (some 10) 0 10]) := by
    have h := (toy_extracts_intrinsic_domain (Toy.band (some 10) 0 10)).2
    ext x
    simp only [Sem.set_pts, Sem.intrinsic_domain, Toy.domain_region, Toy.region,
      List.mem_singleton, exists_eq_left, Set.mem_setOf_eq]
    exact Set.ext_iff.mp h x
  ⟨hd0,
    (lexopt_result_over_intrinsic_domain Toy.sem Toy.env
      (Toy.region [Toy.band (some 10) 0 10]) Toy.universe_in
      (Toy.domain_region (Toy.band (some 10) 0 10)) 0 rfl
      (fun x _ => ⟨_, List.mem_singleton.mpr rfl, rfl⟩) hd0 (by decide) (by decide)
      (toy_aligned_exact _ _ _ 0) (toy_aligned_exact _ _ _ 0)).1⟩

/-! ## Indexing of the atoms and the accumulator without a slot -/

theorem fold_visit_no_slot (E : Env Space BMap TYPE) (bmap : Option BMap) (flags : Nat)
    (atoms : List (Option BMap)) :
    ∀ st : Acc Space BMap TYPE, st.empty = none →
      (∀ c ∈ st.calls, c.is_union = false) →
      (atoms.foldl (visit E bmap flags) st).all_empty = st.all_empty ∧
        ∀ c ∈ (atoms.foldl (visit E bmap flags) st).calls, c.is_union = false := by
  induction atoms with
  | nil =>
    intro st _ hc
    exact ⟨rfl, hc⟩
  | cons a atoms ih =>
    intro st hs hc
    have hv := visit_none E bmap a flags st hs
    have h1 : (visit E bmap flags st a).empty = none := by rw [hv]
    have h2 : ∀ c ∈ (visit E bmap flags st a).calls, c.is_union = false := by
      rw [hv]
      intro c hcm
      simp only [List.mem_append, List.mem_singleton] at hcm
      rcases hcm with (hcm | hcm) | hcm
      · exact hc c hcm
      · subst hcm
        rfl
      · subst hcm
        rfl
    obtain ⟨h3, h4⟩ := ih (visit E bmap flags st a) h1 h2
    rw [List.foldl_cons]
    refine ⟨?_, h4⟩
    rw [h3, hv]

/-- C16 (atom indexing is always in range).  When disjointification succeeds
and the plain-emptiness test does not fire, the partition has at least one
piece, index `0` and every index `i` of the loop (`1 ≤ i < n`) refer to an
existing piece, and every Atom Solver call receives an existing piece of the
partition as its domain.  Without a slot the local `all_empty` is still
unassigned when the loop is over, and no region union, the only call that
reads it, is made. -/
theorem atom_access_in_range (E : Env Space BMap TYPE) (bmap : Option BMap)
    (dom : Option (isl_set Space BMap)) (dj : isl_set Space BMap) (empty : Slot Space BMap)
    (flags : Nat)
    (hd : E.isl_set_make_disjoint dom = some dj)
    (hne : isl_set_plain_is_empty dj = false) :
    0 < dj.n ∧
      (∃ a, dj.p[0]? = some a) ∧
      (∀ i ∈ List.range' 1 (dj.n - 1), 1 ≤ i ∧ i < dj.n ∧ ∃ a, dj.p[i]? = some a) ∧
      (∀ bm d e f, Call.tab_basic_map_partial_lexopt bm d e f ∈
          (basic_map_partial_lexopt E bmap dom empty flags).calls →
        ∃ a ∈ dj.p, d = some a) ∧
      (empty = none →
        ((List.range' 1 (dj.n - 1)).foldl (loop_body E bmap dj flags)
            (first E bmap dom dj.p[0]? none flags)).all_empty = none ∧
          (basic_map_partial_lexopt E bmap dom empty flags).empty = none ∧
          ∀ c ∈ (basic_map_partial_lexopt E bmap dom empty flags).calls,
            c.is_union = false) := by
  have hn : 0 < dj.n := by
    simp only [isl_set_plain_is_empty, beq_eq_false_iff_ne, ne_eq] at hne
    omega
  cases hp : dj.p with
  | nil => simp [isl_map.n, hp] at hn
  | cons a0 rest =>
    have hlen : dj.n = rest.length + 1 := by simp [isl_map.n, hp]
    refine ⟨hn, ⟨a0, by simp⟩, ?_, ?_, ?_⟩
    · intro i hi
      rw [List.mem_range'_1] at hi
      have hi2 : i < (a0 :: rest).length := by
        rw [List.length_cons]
        omega
      exact ⟨hi.1, by omega, (a0 :: rest)[i], List.getElem?_eq_getElem hi2⟩
    · intro bm d e f hmem
      have hlog := engine_solver_log E bmap dom dj empty flags a0 rest hd hp
      have hin : Call.tab_basic_map_partial_lexopt bm d e f ∈
          (basic_map_partial_lexopt E bmap dom empty flags).calls.filter Call.is_solver :=
        List.mem_filter.mpr ⟨hmem, rfl⟩
      rw [hlog] at hin
      obtain ⟨a, ha, heq⟩ := List.mem_map.mp hin
      cases heq
      exact ⟨a, ha, rfl⟩
    · intro he
      subst he
      have hf : (first E bmap dom (some a0) none flags).empty = none := by
        simp [first, isl_basic_map_partial_lexopt, Slot.store]
      have hfa : (first E bmap dom (some a0) none flags).all_empty = none := by
        simp [first, isl_basic_map_partial_lexopt, Slot.store]
      have hfc : ∀ c ∈ (first E bmap dom (some a0) none flags).calls, c.is_union = false := by
        intro c hc
        simp only [first, isl_basic_map_partial_lexopt, List.mem_cons, List.mem_singleton,
          List.not_mem_nil, or_false] at hc
        rcases hc with hc | hc <;> subst hc <;> rfl
      obtain ⟨h1, h2⟩ := fold_visit_no_slot E bmap flags (rest.map some) _ hf hfc
      have h0 : (a0 :: rest)[0]? = some a0 := by simp
      refine ⟨?_, engine_empty_none E bmap dom flags, ?_⟩
      · rw [h0, loop_eq_fold_visit E bmap dj flags _ a0 rest hp, h1, hfa]
      · rw [engine_cons E bmap dom dj none flags a0 rest hd hp]
        exact h2

/-- Witness of C16: the two atoms of `{x : 0 ≤ x ≤ 5} ∪ {x : 3 ≤ x ≤ 8}`,
without a slot. -/
theorem atom_access_in_range_witness :
    isl_set_plain_is_empty
        ({ dim := Toy.sp, p := Toy.disjoint_pieces [] [Toy.interval 0 5, Toy.interval 3 8] } :
          isl_set Toy.Space0 Toy.Piece) = false ∧
      (∀ bm d e f, Call.tab_basic_map_partial_lexopt bm d e f ∈
          (basic_map_partial_lexopt Toy.env (some (Toy.band none 0 10))
            (some (Toy.region [Toy.interval 0 5, Toy.interval 3 8])) none 0).calls →
        ∃ a ∈ Toy.disjoint_pieces [] [Toy.interval 0 5, Toy.interval 3 8], d = some a) ∧
      (basic_map_partial_lexopt Toy.env (some (Toy.band none 0 10))
        (some (Toy.region [Toy.interval 0 5, Toy.interval 3 8])) none 0).empty = none ∧
      ∀ c ∈ (basic_map_partial_lexopt Toy.env (some (Toy.band none 0 10))
          (some (Toy.region [Toy.interval 0 5, Toy.interval 3 8])) none 0).calls,
        c.is_union = false :=
  have h := atom_access_in_range Toy.env (some (Toy.band none 0 10))
    (some (Toy.region [Toy.interval 0 5, Toy.interval 3 8]))
    { dim := Toy.sp, p := Toy.disjoint_pieces [] [Toy.interval 0 5, Toy.interval 3 8] }
    none 0 rfl rfl
  ⟨rfl, h.2.2.2.1, (h.2.2.2.2 rfl).2.1, (h.2.2.2.2 rfl).2.2⟩

end Isl
